import Mathlib

/-!
Verification of the fixg FIX 4.4 session engine.

This development shallowly embeds the Rust sources of the `fixg` repository
(`src/protocol.rs`, `src/gateway.rs`, `src/storage.rs`, and the generated
admin-message code from `build.rs`) into Lean 4 and proves, or refutes,
the specification's claims about them.

Modelling conventions:
 * Rust byte slices / `Vec<u8>` / `Bytes` are `List Nat`, one entry per byte.
 * Rust `String` values are their UTF-8 bytes, again `List Nat`.
 * `HashMap<u32, String>` is an association list `List (Nat × List Nat)`
   with insert-replaces-existing-key semantics (`insertField`); a freshly
   built map has pairwise distinct keys, as a `HashMap` does.
 * Machine integers are `Nat`; wherever overflow is observable in the code
   (`wrapping_add` in the checksum, `parse::<uN>` range errors) the bound is
   explicit (`% 256`, `parseNatBounded`).
 * Fallible Rust functions returning `Result<_, String>` become
   `Except String _`.
-/

deriving instance DecidableEq for Except

namespace Fixg

/-! ## Byte-level helpers: ASCII decimal rendering and parsing

`natToBytes n` is the ASCII decimal rendering of `n`, i.e. the bytes of
Rust's `n.to_string()` for an unsigned integer. `parseNatBounded` models
`str::parse::<uN>()`: an optional leading `+`, then one or more ASCII
digits, and the value must fit the type's range. -/

/-- Digit-accumulating core of `to_string`, with explicit fuel so that the
recursion is structural (and therefore kernel-reducible); `fuel ≥ n`
always suffices since the argument shrinks by `/ 10` each step. -/
def natToBytesCore : Nat → Nat → List Nat
  | 0, n => [n + 48]
  | fuel + 1, n =>
    if n < 10 then [n + 48]
    else natToBytesCore fuel (n / 10) ++ [n % 10 + 48]

def natToBytes (n : Nat) : List Nat := natToBytesCore n n

/-- One byte is an ASCII digit. -/
def isDigitByte (b : Nat) : Bool := 48 ≤ b && b ≤ 57

def allDigits (s : List Nat) : Bool := s.all isDigitByte

/-- Value of a digit string (most significant first), as accumulated by a
decimal parser. -/
def digitsVal (s : List Nat) : Nat := s.foldl (fun a b => a * 10 + (b - 48)) 0

/-- Strip one optional leading `+`, as Rust's unsigned integer parser does. -/
def stripPlus (s : List Nat) : List Nat :=
  match s with
  | 43 :: rest => rest
  | _ => s

/-- Model of `str::parse::<uN>` for an unsigned type whose exclusive upper
bound is `bound`. -/
def parseNatBounded (bound : Nat) (s : List Nat) : Option Nat :=
  let t := stripPlus s
  if t ≠ [] ∧ allDigits t ∧ digitsVal t < bound then some (digitsVal t) else none

def parseU8 : List Nat → Option Nat := parseNatBounded 256

def parseU32 : List Nat → Option Nat := parseNatBounded (2 ^ 32)

def parseU64 : List Nat → Option Nat := parseNatBounded (2 ^ 64)

/-- `usize` is 64-bit on every platform this crate targets. -/
def parseUsize : List Nat → Option Nat := parseNatBounded (2 ^ 64)

/-- `{:03}` formatting: pad the decimal rendering with leading zeros to at
least three characters. -/
def pad3 (n : Nat) : List Nat :=
  List.replicate (3 - (natToBytes n).length) 48 ++ natToBytes n

/-! ## UTF-8 validity

Model of `std::str::from_utf8(..).is_ok()`: the byte sequence is valid
UTF-8 per RFC 3629 (shortest forms only, no surrogates, max U+10FFFF). -/

/-- A UTF-8 continuation byte. -/
def utf8Cont (b : Nat) : Bool := 128 ≤ b && b ≤ 191

/-- Number of continuation bytes of a well-formed UTF-8 character starting
with lead byte `b` and followed by `rest`, or `none` if ill-formed there. -/
def utf8CharLen (b : Nat) (rest : List Nat) : Option Nat :=
  if b < 128 then some 0
  else if 194 ≤ b && b ≤ 223 then
    match rest with
    | c1 :: _ => if utf8Cont c1 then some 1 else none
    | _ => none
  else if b = 224 then
    match rest with
    | c1 :: c2 :: _ => if (160 ≤ c1 && c1 ≤ 191) && utf8Cont c2 then some 2 else none
    | _ => none
  else if 225 ≤ b && b ≤ 236 then
    match rest with
    | c1 :: c2 :: _ => if utf8Cont c1 && utf8Cont c2 then some 2 else none
    | _ => none
  else if b = 237 then
    match rest with
    | c1 :: c2 :: _ => if (128 ≤ c1 && c1 ≤ 159) && utf8Cont c2 then some 2 else none
    | _ => none
  else if 238 ≤ b && b ≤ 239 then
    match rest with
    | c1 :: c2 :: _ => if utf8Cont c1 && utf8Cont c2 then some 2 else none
    | _ => none
  else if b = 240 then
    match rest with
    | c1 :: c2 :: c3 :: _ =>
      if (144 ≤ c1 && c1 ≤ 191) && utf8Cont c2 && utf8Cont c3 then some 3 else none
    | _ => none
  else if 241 ≤ b && b ≤ 243 then
    match rest with
    | c1 :: c2 :: c3 :: _ =>
      if utf8Cont c1 && utf8Cont c2 && utf8Cont c3 then some 3 else none
    | _ => none
  else if b = 244 then
    match rest with
    | c1 :: c2 :: c3 :: _ =>
      if (128 ≤ c1 && c1 ≤ 143) && utf8Cont c2 && utf8Cont c3 then some 3 else none
    | _ => none
  else none

/-- Fuel-based validity scan; `fuel ≥ l.length` always suffices since
every character consumes at least the lead byte. -/
def utf8ValidCore : Nat → List Nat → Bool
  | _, [] => true
  | 0, _ :: _ => false
  | fuel + 1, b :: rest =>
    match utf8CharLen b rest with
    | none => false
    | some k => utf8ValidCore fuel (rest.drop k)

def utf8Valid (l : List Nat) : Bool := utf8ValidCore l.length l

/-- Every byte of `s` is ASCII. -/
def allAscii (s : List Nat) : Bool := s.all (· < 128)

/-! ## Codec data model (`src/protocol.rs`)

`FixMsgType` and `FixMessage` mirror the Rust types.  The `fields` hash
map is an association list with distinct keys; `insertField` mirrors
`HashMap::insert` (replace if present, add otherwise), `getField` mirrors
`HashMap::get`, `eraseKey` mirrors `HashMap::remove`. -/

/-- `SOH` delimiter byte (0x01). -/
def SOH : Nat := 1

inductive FixMsgType where
  | logon
  | heartbeat
  | testRequest
  | logout
  | resendRequest
  | sequenceReset
  /-- Unknown or unsupported message type; the payload is the UTF-8 bytes
  of the tag-35 code string. -/
  | unknown (s : List Nat)
deriving DecidableEq, Repr

/-- The `fields` map: tag number to the UTF-8 bytes of the value. -/
abbrev FieldMap := List (Nat × List Nat)

def insertField (k : Nat) (v : List Nat) : FieldMap → FieldMap
  | [] => [(k, v)]
  | (k', v') :: rest =>
    if k' = k then (k, v) :: rest else (k', v') :: insertField k v rest

def getField (k : Nat) : FieldMap → Option (List Nat)
  | [] => none
  | (k', v) :: rest => if k' = k then some v else getField k rest

def eraseKey (k : Nat) : FieldMap → FieldMap
  | [] => []
  | (k', v) :: rest => if k' = k then rest else (k', v) :: eraseKey k rest

structure FixMessage where
  begin_string : List Nat
  body_length : Nat
  msg_type : FixMsgType
  fields : FieldMap
deriving DecidableEq, Repr

/-- `FixMessage::new`. -/
def FixMessage.new (mt : FixMsgType) : FixMessage :=
  { begin_string := [70, 73, 88, 46, 52, 46, 52],  -- "FIX.4.4"
    body_length := 0,
    msg_type := mt,
    fields := [] }

/-- `FixMessage::set_field`. -/
def set_field (m : FixMessage) (tag : Nat) (value : List Nat) : FixMessage :=
  { m with fields := insertField tag value m.fields }

/-- `compute_checksum`: the byte sum modulo 256.  The Rust sum is over
`u32`; since `256 ∣ 2^32`, wrap-around there does not change the result
modulo 256. -/
def compute_checksum (bytes : List Nat) : Nat := bytes.sum % 256

/-- `msg_type_as_str` — note `Unknown(_)` becomes `"?"`. -/
def msg_type_as_str : FixMsgType → List Nat
  | .logon => [65]          -- "A"
  | .heartbeat => [48]      -- "0"
  | .testRequest => [49]    -- "1"
  | .logout => [53]         -- "5"
  | .resendRequest => [50]  -- "2"
  | .sequenceReset => [52]  -- "4"
  | .unknown _ => [63]      -- "?"

/-- `parse_msg_type`. -/
def parse_msg_type (s : List Nat) : FixMsgType :=
  if s = [65] then .logon
  else if s = [48] then .heartbeat
  else if s = [49] then .testRequest
  else if s = [53] then .logout
  else if s = [50] then .resendRequest
  else if s = [52] then .sequenceReset
  else .unknown s

/-! ### Encoding (`encode_to_writer`, via `encode` into a fresh buffer) -/

/-- "8=FIX.4.4" as bytes. -/
def beginStringField : List Nat := [56, 61, 70, 73, 88, 46, 52, 46, 52]

/-- The key order used by `sort_by_key(|(tag, _)| *tag)`: ascending tag.
Rust's sort is stable; `List.insertionSort` with `≤` on the key is the
same stable sort. -/
def sortFields (fs : FieldMap) : FieldMap :=
  fs.insertionSort (fun a b => a.1 ≤ b.1)

/-- `35=<code>` first, then the message's fields in ascending tag order. -/
def bodyFieldsOf (m : FixMessage) : FieldMap :=
  (35, msg_type_as_str m.msg_type) :: sortFields m.fields

/-- Contribution of one field to BodyLength: `tag=value⟨SOH⟩`. -/
def fieldLen (p : Nat × List Nat) : Nat :=
  (natToBytes p.1).length + 1 + p.2.length + 1

def encodeBodyLen (m : FixMessage) : Nat :=
  ((bodyFieldsOf m).map fieldLen).sum

/-- `tag=value` bytes of one field. -/
def renderField (p : Nat × List Nat) : List Nat :=
  natToBytes p.1 ++ [61] ++ p.2

/-- The bytes written before the `10=` trailer: `8=FIX.4.4⟨SOH⟩`,
`9=<len>⟨SOH⟩`, then each body field followed by ⟨SOH⟩. -/
def encodeChecksumRegion (m : FixMessage) : List Nat :=
  beginStringField ++ [SOH] ++ [57, 61] ++ natToBytes (encodeBodyLen m) ++ [SOH]
    ++ ((bodyFieldsOf m).map (fun p => renderField p ++ [SOH])).flatten

/-- The checksum fold `fold(0u8, wrapping_add) % 256` over the bytes
written so far. -/
def wrapSum (l : List Nat) : Nat :=
  (l.foldl (fun a b => (a + b) % 256) 0) % 256

/-- `encode`: the full wire frame for a message. -/
def encode (m : FixMessage) : List Nat :=
  encodeChecksumRegion m ++ [49, 48, 61] ++ pad3 (wrapSum (encodeChecksumRegion m)) ++ [SOH]

/-! ### Decoding (`decode`) -/

/-- `s.splitn(2, '=')` on field bytes: the part before the first `=`
(0x3D) and, if a `=` exists, the part after it.  `=` is ASCII, so on
valid UTF-8 the byte-level split coincides with the char-level one. -/
def splitFirstEq : List Nat → List Nat × Option (List Nat)
  | [] => ([], none)
  | b :: rest =>
    if b = 61 then ([], some rest)
    else
      let p := splitFirstEq rest
      (b :: p.1, p.2)

/-- The first loop of `decode`: check each field is UTF-8, split it at the
first `=`, parse the tag as `u32` and insert into the map (an insert for an
existing tag silently overwrites the previous value). -/
def buildMap : List (List Nat) → FieldMap → Except String FieldMap
  | [], m => .ok m
  | f :: rest, m =>
    if utf8Valid f = true then
      let p := splitFirstEq f
      match p.2 with
      | none => .error "missing value"
      | some v =>
        match parseU32 p.1 with
        | none => .error "non-numeric tag"
        | some tag => buildMap rest (insertField tag v m)
    else .error "non-utf8 field"

/-- The second loop of `decode`: recompute BodyLength by summing the sizes
(plus the SOH) of every field strictly after the first `9=` field, also
skipping the first `8=` field wherever it occurs. -/
def countBody : List (List Nat) → Bool → Bool → Nat
  | [], _, _ => 0
  | f :: rest, seen8, seen9 =>
    if ¬ seen8 ∧ [56, 61].isPrefixOf f then countBody rest true seen9
    else if ¬ seen9 then
      if [57, 61].isPrefixOf f then countBody rest seen8 true
      else countBody rest seen8 seen9
    else f.length + 1 + countBody rest seen8 seen9

/-- Trailer validation of `decode`: the last SOH-split field. -/
def checkTrailer (trailer : List Nat) : Except String Nat :=
  if utf8Valid trailer = true then
    if [49, 48, 61].isPrefixOf trailer then
      match parseU8 (trailer.drop 3) with
      | some ck => .ok ck
      | none => .error "bad checksum value"
    else .error "missing 10= trailer"
  else .error "non-utf8 trailer"

/-- Everything in `decode` after the checksum has been verified. -/
def decodeFields (fields' : List (List Nat)) : Except String FixMessage :=
  match buildMap fields' [] with
  | .error e => .error e
  | .ok map =>
    match getField 8 map with
    | none => .error "missing 8=BeginString"
    | some begin_string =>
      match getField 9 map with
      | none => .error "missing 9=BodyLength"
      | some body_len_str =>
        match getField 35 map with
        | none => .error "missing 35=MsgType"
        | some msg_type_str =>
          match parseUsize body_len_str with
          | none => .error "invalid 9 value"
          | some body_len_val =>
            if countBody fields' false false = body_len_val then
              .ok { begin_string := begin_string,
                    body_length := body_len_val,
                    msg_type := parse_msg_type msg_type_str,
                    fields := eraseKey 35 (eraseKey 9 (eraseKey 8 map)) }
            else .error "BodyLength mismatch"

/-- `decode`.  Faithful to `src/protocol.rs`: trailing-SOH check, split on
SOH, trailer / checksum validation, field-map construction (duplicate tags
overwrite), header presence, BodyLength recomputation, and removal of tags
8/9/35 from the returned map. -/
def decode (buf : List Nat) : Except String FixMessage :=
  if buf.getLast? = some SOH then
    match ((buf.dropLast).splitOn SOH).getLast? with
    | none => .error "empty message"
    | some trailer =>
      match checkTrailer trailer with
      | .error e => .error e
      | .ok expected_ck =>
        if compute_checksum (buf.take (buf.length - (trailer.length + 1))) = expected_ck then
          decodeFields ((buf.dropLast).splitOn SOH).dropLast
        else .error "checksum mismatch"
  else .error "message must end with SOH"

/-! ### Stream framer (`try_extract_one`)

The Rust function mutates a `BytesMut` buffer and returns
`Option<Bytes>`; the model returns the extracted frame (if any) together
with the buffer contents after the call.  The buffer is advanced only on
the `Some` path. -/

/-- `memchr::memmem::find`: index of the first occurrence of `pat`. -/
def findSub (pat : List Nat) : List Nat → Option Nat
  | [] => if pat.isPrefixOf [] then some 0 else none
  | b :: t =>
    if pat.isPrefixOf (b :: t) then some 0
    else (findSub pat t).map (· + 1)

/-- `memchr::memchr`: index of the first occurrence of byte `x`. -/
def memchr (x : Nat) : List Nat → Option Nat
  | [] => none
  | b :: t => if b = x then some 0 else (memchr x t).map (· + 1)

/-- `try_extract_one`. -/
def try_extract_one (buffer : List Nat) : Option (List Nat) × List Nat :=
  match findSub [56, 61] buffer with
  | none => (none, buffer)
  | some start =>
    match findSub [57, 61] (buffer.drop start) with
    | none => (none, buffer)
    | some rel =>
      let nine_pos := rel + start
      match memchr SOH (buffer.drop nine_pos) with
      | none => (none, buffer)
      | some i =>
        let nine_end := i + nine_pos
        let body_len_str := (buffer.take nine_end).drop (nine_pos + 2)
        if utf8Valid body_len_str = true then
          match parseUsize body_len_str with
          | none => (none, buffer)
          | some body_len =>
            let body_start := nine_end + 1
            let total_len := body_start + body_len + 7 - start
            if start + total_len > buffer.length then (none, buffer)
            else (some ((buffer.drop start).take total_len), buffer.drop (start + total_len))
        else (none, buffer)

/-! ### Admin message constructors -/

/-- `build_logon`. -/
def build_logon (heart_bt_int_secs : Nat) (sender_comp_id target_comp_id : List Nat) :
    FixMessage :=
  set_field (set_field (set_field (FixMessage.new .logon)
    49 sender_comp_id) 56 target_comp_id) 108 (natToBytes heart_bt_int_secs)

/-- `build_heartbeat`. -/
def build_heartbeat (test_req_id : Option (List Nat))
    (sender_comp_id target_comp_id : List Nat) : FixMessage :=
  let m := set_field (set_field (FixMessage.new .heartbeat)
    49 sender_comp_id) 56 target_comp_id
  match test_req_id with
  | some id => set_field m 112 id
  | none => m

/-- `build_test_request`. -/
def build_test_request (id : List Nat) (sender_comp_id target_comp_id : List Nat) :
    FixMessage :=
  set_field (set_field (set_field (FixMessage.new .testRequest)
    49 sender_comp_id) 56 target_comp_id) 112 id

/-- `build_logout`. -/
def build_logout (text : Option (List Nat)) (sender_comp_id target_comp_id : List Nat) :
    FixMessage :=
  let m := set_field (set_field (FixMessage.new .logout)
    49 sender_comp_id) 56 target_comp_id
  match text with
  | some t => set_field m 58 t
  | none => m

/-- `build_resend_request`. -/
def build_resend_request (begin_seq_no end_seq_no : Nat)
    (sender_comp_id target_comp_id : List Nat) : FixMessage :=
  set_field (set_field (set_field (set_field (FixMessage.new .resendRequest)
    49 sender_comp_id) 56 target_comp_id) 7 (natToBytes begin_seq_no))
    16 (natToBytes end_seq_no)

/-- `build_sequence_reset`. -/
def build_sequence_reset (new_seq_no : Nat) (gap_fill : Bool)
    (sender_comp_id target_comp_id : List Nat) : FixMessage :=
  let m := set_field (set_field (set_field (FixMessage.new .sequenceReset)
    49 sender_comp_id) 56 target_comp_id) 36 (natToBytes new_seq_no)
  if gap_fill then set_field m 123 [89] else m

/-! ## Generated admin messages (`build.rs` → `messages/generated.rs`) -/

inductive AdminMessage where
  | logon (heart_bt_int_secs : Option Nat) (sender_comp_id target_comp_id : Option (List Nat))
      (encrypt_method : Option Nat) (reset_seq_num_flag : Option Bool)
  | heartbeat (test_req_id : Option (List Nat))
  | testRequest (test_req_id : List Nat)
  | logout (text : Option (List Nat)) (session_status : Option Nat)
  | resendRequest (begin_seq_no end_seq_no : Nat)
  | sequenceReset (gap_fill_flag : Option Bool) (new_seq_no : Nat)
deriving DecidableEq, Repr

def setOptField (m : FixMessage) (tag : Nat) : Option (List Nat) → FixMessage
  | some v => set_field m tag v
  | none => m

def boolYN : Bool → List Nat
  | true => [89]   -- "Y"
  | false => [78]  -- "N"

/-- `AdminMessage::into_fix`. -/
def AdminMessage.into_fix (msg : AdminMessage)
    (sender_comp_id target_comp_id : List Nat) : FixMessage :=
  let m := match msg with
    | .logon hb _ _ em reset =>
      let m := setOptField (FixMessage.new .logon) 108 (hb.map natToBytes)
      let m := setOptField m 98 (em.map natToBytes)
      setOptField m 141 (reset.map boolYN)
    | .heartbeat trid => setOptField (FixMessage.new .heartbeat) 112 trid
    | .testRequest trid => set_field (FixMessage.new .testRequest) 112 trid
    | .logout text status =>
      let m := setOptField (FixMessage.new .logout) 58 text
      setOptField m 1409 (status.map natToBytes)
    | .resendRequest b e =>
      set_field (set_field (FixMessage.new .resendRequest) 7 (natToBytes b)) 16 (natToBytes e)
    | .sequenceReset gap n =>
      let m := setOptField (FixMessage.new .sequenceReset) 123 (gap.map boolYN)
      set_field m 36 (natToBytes n)
  set_field (set_field m 49 sender_comp_id) 56 target_comp_id

/-! ## Initiator session task (`Gateway::spawn`, `src/gateway.rs` 337–546)

The Rust session task is an event loop selecting over the application's
outbound channel, socket reads and a heartbeat timer.  The model makes the
events explicit.  Each inbound event carries one complete frame (as
produced by `try_extract_one`); each event carries the current wall-clock
time in milliseconds (`Instant::now` / `now_millis`).  The model records
the frames written to the socket and the records appended to the store;
client-event emission and the socket itself are outside the model. -/

inductive Direction where
  | inbound
  | outbound
deriving DecidableEq, Repr

/-- One journal append, as issued via `MessageStore::append_bytes`. -/
structure StoredEntry where
  direction : Direction
  seq : Option Nat
  ts_millis : Nat
  payload : List Nat
deriving DecidableEq, Repr

/-- The outbound records with a sequence number in `[b, e]`, keyed by
sequence number, in append order. -/
def rangeEntries (entries : List StoredEntry) (b e : Nat) : List (Nat × List Nat) :=
  entries.filterMap (fun r =>
    match r.direction, r.seq with
    | .outbound, some s => if b ≤ s ∧ s ≤ e then some (s, r.payload) else none
    | _, _ => none)

/-- Journal-level semantics of `load_outbound_range`: filter the indexed
outbound records to `[b, e]` and stable-sort ascending by sequence number
(`FileMessageStore` realises exactly this; see the storage section). -/
def journalLoadRange (entries : List StoredEntry) (b e : Nat) : List (List Nat) :=
  ((rangeEntries entries b e).insertionSort (fun a b => a.1 ≤ b.1)).map (·.2)

structure InitiatorConfig where
  sender_comp_id : List Nat
  target_comp_id : List Nat
  heartbeat_interval_secs : Nat
deriving DecidableEq, Repr

structure SessState where
  out_seq : Nat
  in_seq : Nat
  last_rx : Nat
  test_req_outstanding : Option (List Nat)
  store : List StoredEntry
deriving DecidableEq, Repr

inductive SessionEvent where
  | inbound (frame : List Nat)
  | tick
  | appRaw (payload : List Nat)
  | appAdmin (msg : AdminMessage)
deriving DecidableEq, Repr

structure StepResult where
  state : SessState
  writes : List (List Nat)
  disconnected : Bool
deriving DecidableEq, Repr

/-- `msg.fields.get(&34).and_then(|s| s.parse::<u32>().ok())`. -/
def parse34 (m : FixMessage) : Option Nat :=
  match getField 34 m.fields with
  | some s => parseU32 s
  | none => none

/-- Re-encoding done in the ResendRequest arm for each stored chunk that
decodes: stamp `43=Y` and `122=<now millis>`, then re-encode; chunks that
fail to decode are sent verbatim. -/
def resendFrame (now : Nat) (b : List Nat) : List Nat :=
  match decode b with
  | .ok m => encode (set_field (set_field m 43 [89]) 122 (natToBytes now))
  | .error _ => b

/-- The initial actions of the spawned initiator session task: stamp and
send the Logon (`34=1`, `out_seq` becomes 2) and journal it. -/
def sessionStart (cfg : InitiatorConfig) (now : Nat) : StepResult :=
  let logon := set_field
    (build_logon cfg.heartbeat_interval_secs cfg.sender_comp_id cfg.target_comp_id)
    34 (natToBytes 1)
  let bytes := encode logon
  { state := { out_seq := 2, in_seq := 0, last_rx := now, test_req_outstanding := none,
               store := [⟨.outbound, some 1, now, bytes⟩] },
    writes := [bytes],
    disconnected := false }

/-- The socket-read arm of the session loop, for one extracted frame. -/
def sessionInbound (cfg : InitiatorConfig) (now : Nat) (st0 : SessState)
    (frame : List Nat) : StepResult :=
  let st1 := { st0 with last_rx := now }
  match decode frame with
  | .error _ => { state := st1, writes := [], disconnected := true }
  | .ok msg =>
    let st2 := match parse34 msg with
      | some v => { st1 with in_seq := v }
      | none => st1
    let st3 := { st2 with store := st2.store ++ [⟨.inbound, parse34 msg, now, frame⟩] }
    match msg.msg_type with
    | .logon => { state := st3, writes := [], disconnected := false }
    | .heartbeat =>
      let st4 := match getField 112 msg.fields with
        | some id =>
          if st3.test_req_outstanding = some id then
            { st3 with test_req_outstanding := none }
          else st3
        | none => st3
      { state := st4, writes := [], disconnected := false }
    | .testRequest =>
      let hb := set_field
        (build_heartbeat (getField 112 msg.fields) cfg.sender_comp_id cfg.target_comp_id)
        34 (natToBytes st3.out_seq)
      let bytes := encode hb
      { state :=
          { st3 with
            out_seq := st3.out_seq + 1,
            store := st3.store ++ [⟨.outbound, some st3.out_seq, now, bytes⟩] },
        writes := [bytes], disconnected := false }
    | .resendRequest =>
      let b := (match getField 7 msg.fields with
        | some s => parseU32 s
        | none => none).getD 1
      let e := (match getField 16 msg.fields with
        | some s => parseU32 s
        | none => none).getD st3.in_seq
      let writes := (journalLoadRange st3.store b e).map (resendFrame now)
      { state := st3, writes := writes, disconnected := false }
    | .logout =>
      let lo := set_field (build_logout none cfg.sender_comp_id cfg.target_comp_id)
        34 (natToBytes st3.out_seq)
      let bytes := encode lo
      { state :=
          { st3 with
            out_seq := st3.out_seq + 1,
            store := st3.store ++ [⟨.outbound, some st3.out_seq, now, bytes⟩] },
        writes := [bytes], disconnected := true }
    | .sequenceReset => { state := st3, writes := [], disconnected := false }
    | .unknown _ => { state := st3, writes := [], disconnected := false }

/-- The heartbeat-timer arm. -/
def sessionTick (cfg : InitiatorConfig) (now : Nat) (st : SessState) : StepResult :=
  let idle := now - st.last_rx
  let hb := 1000 * cfg.heartbeat_interval_secs
  if 3 * hb ≤ idle then { state := st, writes := [], disconnected := true }
  else if 2 * hb ≤ idle then
    if st.test_req_outstanding = none then
      let tr_id := [84, 82, 45] ++ natToBytes st.out_seq  -- "TR-<out_seq>"
      let tr := set_field (build_test_request tr_id cfg.sender_comp_id cfg.target_comp_id)
        34 (natToBytes st.out_seq)
      let bytes := encode tr
      { state :=
          { st with
            out_seq := st.out_seq + 1,
            store := st.store ++ [⟨.outbound, some st.out_seq, now, bytes⟩],
            test_req_outstanding := some tr_id },
        writes := [bytes], disconnected := false }
    else { state := st, writes := [], disconnected := false }
  else if hb ≤ idle then
    let hbm := set_field (build_heartbeat none cfg.sender_comp_id cfg.target_comp_id)
      34 (natToBytes st.out_seq)
    let bytes := encode hbm
    { state :=
        { st with
          out_seq := st.out_seq + 1,
          store := st.store ++ [⟨.outbound, some st.out_seq, now, bytes⟩] },
      writes := [bytes], disconnected := false }
  else { state := st, writes := [], disconnected := false }

/-- The application-payload arm. -/
def sessionApp (cfg : InitiatorConfig) (now : Nat) (st : SessState) :
    SessionEvent → StepResult
  | .appRaw payload =>
    { state := { st with store := st.store ++ [⟨.outbound, none, now, payload⟩] },
      writes := [payload], disconnected := false }
  | .appAdmin msg =>
    let fix := set_field (msg.into_fix cfg.sender_comp_id cfg.target_comp_id)
      34 (natToBytes st.out_seq)
    let bytes := encode fix
    { state :=
        { st with
          out_seq := st.out_seq + 1,
          store := st.store ++ [⟨.outbound, some st.out_seq, now, bytes⟩] },
      writes := [bytes], disconnected := false }
  | _ => { state := st, writes := [], disconnected := false }

/-- One iteration of the session loop, for one event at time `now`. -/
def sessionStep (cfg : InitiatorConfig) (now : Nat) (st : SessState) :
    SessionEvent → StepResult
  | .inbound frame => sessionInbound cfg now st frame
  | .tick => sessionTick cfg now st
  | ev => sessionApp cfg now st ev

/-- The frames a session writes over a sequence of timed events, stopping
when the loop breaks. -/
def sessionRun (cfg : InitiatorConfig) (st : SessState) :
    List (Nat × SessionEvent) → List (List Nat)
  | [] => []
  | (now, ev) :: rest =>
    let r := sessionStep cfg now st ev
    r.writes ++ (if r.disconnected then [] else sessionRun cfg r.state rest)

/-! ## Message store (`src/storage.rs`, `FileMessageStore`)

The file store keeps, per session stem, a JSON-lines journal
`<stem>.jsonl` and an index `<stem>.idx` of `"<seq> <offset>"` lines.  The
model represents the file system as a map from file name (bytes) to file
content (bytes); a missing file is `none`.

`serde_json::to_string` for `StoredMessageRecord` is rendered exactly
(compact separators, struct-order keys, standard JSON string escapes);
the parser accepts the serializer's grammar (struct-order keys, the
escapes the serializer emits, trailing whitespace), which is the subset of
`serde_json::from_str` exercised by lines the store itself wrote.

`sanitize` maps per byte; Rust maps per `char`.  The two agree on ASCII
company ids, which is the invariant range for `SessionKey`. -/

def ascii (s : String) : List Nat := s.toList.map Char.toNat

structure SessionKey where
  sender_comp_id : List Nat
  target_comp_id : List Nat
deriving DecidableEq, Repr

def isAsciiAlphanumeric (c : Nat) : Bool :=
  (48 ≤ c && c ≤ 57) || (65 ≤ c && c ≤ 90) || (97 ≤ c && c ≤ 122)

/-- `sanitize`: non-alphanumerics become `_`. -/
def sanitize (s : List Nat) : List Nat :=
  s.map (fun c => if isAsciiAlphanumeric c then c else 95)

/-- `SessionKey::file_stem`. -/
def file_stem (k : SessionKey) : List Nat :=
  sanitize k.sender_comp_id ++ [95, 95] ++ sanitize k.target_comp_id

/-- `StoredMessageRecord`; `payload_b64` holds the base64 bytes. -/
structure StoredMessageRecord where
  session : SessionKey
  direction : Direction
  seq : Option Nat
  ts_millis : Nat
  payload_b64 : List Nat
deriving DecidableEq, Repr

/-! ### base64 (the `STANDARD` engine: standard alphabet, canonical padding) -/

def b64Char (n : Nat) : Nat :=
  if n < 26 then 65 + n
  else if n < 52 then 97 + (n - 26)
  else if n < 62 then 48 + (n - 52)
  else if n = 62 then 43
  else 47

def b64Val (c : Nat) : Option Nat :=
  if 65 ≤ c ∧ c ≤ 90 then some (c - 65)
  else if 97 ≤ c ∧ c ≤ 122 then some (c - 97 + 26)
  else if 48 ≤ c ∧ c ≤ 57 then some (c - 48 + 52)
  else if c = 43 then some 62
  else if c = 47 then some 63
  else none

def base64Encode : List Nat → List Nat
  | [] => []
  | [a] => [b64Char (a / 4), b64Char (a % 4 * 16), 61, 61]
  | [a, b] => [b64Char (a / 4), b64Char (a % 4 * 16 + b / 16), b64Char (b % 16 * 4), 61]
  | a :: b :: c :: rest =>
    b64Char (a / 4) :: b64Char (a % 4 * 16 + b / 16) :: b64Char (b % 16 * 4 + c / 64)
      :: b64Char (c % 64) :: base64Encode rest

def base64Decode : List Nat → Option (List Nat)
  | [] => some []
  | [c1, c2, 61, 61] =>
    match b64Val c1, b64Val c2 with
    | some s1, some s2 =>
      if s2 % 16 = 0 then some [s1 * 4 + s2 / 16] else none
    | _, _ => none
  | [c1, c2, c3, 61] =>
    match b64Val c1, b64Val c2, b64Val c3 with
    | some s1, some s2, some s3 =>
      if s3 % 4 = 0 then
        some [s1 * 4 + s2 / 16, s2 % 16 * 16 + s3 / 4]
      else none
    | _, _, _ => none
  | c1 :: c2 :: c3 :: c4 :: rest =>
    match b64Val c1, b64Val c2, b64Val c3, b64Val c4, base64Decode rest with
    | some s1, some s2, some s3, some s4, some tail =>
      some ((s1 * 4 + s2 / 16) :: (s2 % 16 * 16 + s3 / 4) :: (s3 % 4 * 64 + s4) :: tail)
    | _, _, _, _, _ => none
  | _ => none

/-! ### JSON line serialization and its inverse parser -/

def hexDigitLower (d : Nat) : Nat := if d < 10 then 48 + d else 97 + (d - 10)

def escByte (b : Nat) : List Nat :=
  if b = 34 then [92, 34]
  else if b = 92 then [92, 92]
  else if b = 8 then [92, 98]
  else if b = 9 then [92, 116]
  else if b = 10 then [92, 110]
  else if b = 12 then [92, 102]
  else if b = 13 then [92, 114]
  else if b < 32 then [92, 117, 48, 48, hexDigitLower (b / 16), hexDigitLower (b % 16)]
  else [b]

def jsonEscape (s : List Nat) : List Nat := s.flatMap escByte

def quoteStr (s : List Nat) : List Nat := [34] ++ jsonEscape s ++ [34]

def directionStr : Direction → List Nat
  | .inbound => ascii "Inbound"
  | .outbound => ascii "Outbound"

def seqJson : Option Nat → List Nat
  | some n => natToBytes n
  | none => ascii "null"

/-- `serde_json::to_string(&rec)` for a `StoredMessageRecord`. -/
def recordJson (r : StoredMessageRecord) : List Nat :=
  ascii "\x7b\"session\":\x7b\"sender_comp_id\":" ++ quoteStr r.session.sender_comp_id
    ++ ascii ",\"target_comp_id\":" ++ quoteStr r.session.target_comp_id
    ++ ascii "\x7d,\"direction\":" ++ quoteStr (directionStr r.direction)
    ++ ascii ",\"seq\":" ++ seqJson r.seq
    ++ ascii ",\"ts_millis\":" ++ natToBytes r.ts_millis
    ++ ascii ",\"payload_b64\":" ++ quoteStr r.payload_b64
    ++ ascii "\x7d"

def expectBytes (pat s : List Nat) : Option (List Nat) :=
  if pat.isPrefixOf s then some (s.drop pat.length) else none

def unescByte (e : Nat) : Option Nat :=
  if e = 34 then some 34
  else if e = 92 then some 92
  else if e = 47 then some 47
  else if e = 98 then some 8
  else if e = 116 then some 9
  else if e = 110 then some 10
  else if e = 102 then some 12
  else if e = 114 then some 13
  else none

def hexVal (c : Nat) : Option Nat :=
  if 48 ≤ c ∧ c ≤ 57 then some (c - 48)
  else if 97 ≤ c ∧ c ≤ 102 then some (c - 97 + 10)
  else if 65 ≤ c ∧ c ≤ 70 then some (c - 65 + 10)
  else none

/-- Scan a JSON string body up to its closing quote, unescaping; `\u00XX`
is supported for the ASCII range, which is all the serializer emits. -/
def scanJsonStr : List Nat → Option (List Nat × List Nat)
  | [] => none
  | 34 :: rest => some ([], rest)
  | 92 :: 117 :: h1 :: h2 :: h3 :: h4 :: rest =>
    match hexVal h1, hexVal h2, hexVal h3, hexVal h4, scanJsonStr rest with
    | some a, some b, some c, some d, some (s, r) =>
      let cp := ((a * 16 + b) * 16 + c) * 16 + d
      if cp < 128 then some (cp :: s, r) else none
    | _, _, _, _, _ => none
  | 92 :: e :: rest =>
    match unescByte e, scanJsonStr rest with
    | some b, some (s, r) => some (b :: s, r)
    | _, _ => none
  | b :: rest =>
    if b = 92 then none
    else
      match scanJsonStr rest with
      | some (s, r) => some (b :: s, r)
      | none => none

def isWsByte (b : Nat) : Bool := b = 32 || b = 9 || b = 10 || b = 13

def scanNat (bound : Nat) (s : List Nat) : Option (Nat × List Nat) :=
  let ds := s.takeWhile isDigitByte
  if ds ≠ [] ∧ digitsVal ds < bound then some (digitsVal ds, s.drop ds.length) else none

def scanSeq (s : List Nat) : Option (Option Nat × List Nat) :=
  match expectBytes (ascii "null") s with
  | some r => some (none, r)
  | none =>
    match scanNat (2 ^ 32) s with
    | some (n, r) => some (some n, r)
    | none => none

def parseDirection (s : List Nat) : Option Direction :=
  if s = ascii "Inbound" then some .inbound
  else if s = ascii "Outbound" then some .outbound
  else none

/-- `serde_json::from_str::<StoredMessageRecord>` on a line the serializer
produced (struct-order keys; trailing whitespace tolerated). -/
def parseRecordLine (l : List Nat) : Option StoredMessageRecord := do
  let r ← expectBytes (ascii "\x7b\"session\":\x7b\"sender_comp_id\":\"") l
  let (sender, r) ← scanJsonStr r
  let r ← expectBytes (ascii ",\"target_comp_id\":\"") r
  let (target, r) ← scanJsonStr r
  let r ← expectBytes (ascii "\x7d,\"direction\":\"") r
  let (dirs, r) ← scanJsonStr r
  let dir ← parseDirection dirs
  let r ← expectBytes (ascii ",\"seq\":") r
  let (seqv, r) ← scanSeq r
  let r ← expectBytes (ascii ",\"ts_millis\":") r
  let (ts, r) ← scanNat (2 ^ 64) r
  let r ← expectBytes (ascii ",\"payload_b64\":\"") r
  let (p64, r) ← scanJsonStr r
  let r ← expectBytes (ascii "\x7d") r
  if r.all isWsByte then
    some ⟨⟨sender, target⟩, dir, seqv, ts, p64⟩
  else none

/-! ### File-system state, flushing and loading -/

/-- File name (bytes) to content; `none` is a missing file. -/
def Fs : Type := List Nat → Option (List Nat)

def emptyFs : Fs := fun _ => none

def fsWrite (fs : Fs) (name content : List Nat) : Fs :=
  fun n => if n = name then some content else fs n

def jsonlName (stem : List Nat) : List Nat := stem ++ ascii ".jsonl"

def idxName (stem : List Nat) : List Nat := stem ++ ascii ".idx"

/-- `append_bytes`: build the record enqueued to the writer task
(`payload_b64` is the standard base64 of the payload). -/
def append_bytes (session : SessionKey) (direction : Direction) (seq : Option Nat)
    (ts_millis : Nat) (payload : List Nat) : StoredMessageRecord :=
  ⟨session, direction, seq, ts_millis, base64Encode payload⟩

/-- One iteration of `flush_batch`: query the data file size as the
offset, append the JSON line plus newline, and, for an outbound record
with a seq, append `"<seq> <offset>\n"` to the index. -/
def flushRecord (fs : Fs) (rec : StoredMessageRecord) : Fs :=
  let stem := file_stem rec.session
  let dataPath := jsonlName stem
  let idxPath := idxName stem
  let old := (fs dataPath).getD []
  let offset := old.length
  let fs1 := fsWrite fs dataPath (old ++ recordJson rec ++ [10])
  match rec.direction, rec.seq with
  | .outbound, some s =>
    let oldIdx := (fs1 idxPath).getD []
    fsWrite fs1 idxPath (oldIdx ++ natToBytes s ++ [32] ++ natToBytes offset ++ [10])
  | _, _ => fs1

/-- `flush_batch` drains the queue front-to-back; across batches the
writer preserves arrival order, so any batching of the same record
sequence folds to the same file state. -/
def flush_batch (fs : Fs) (recs : List StoredMessageRecord) : Fs :=
  recs.foldl flushRecord fs

/-- `str::lines`: split on `\n`, dropping a final empty piece, stripping a
trailing `\r` from each line. -/
def linesOf (content : List Nat) : List (List Nat) :=
  let parts := content.splitOn 10
  let parts := if parts.getLast? = some [] then parts.dropLast else parts
  parts.map (fun l => if l.getLast? = some 13 then l.dropLast else l)

/-- `split_whitespace` within one line. -/
def splitWs (l : List Nat) : List (List Nat) :=
  (l.splitOnP isWsByte).filter (· ≠ [])

/-- `BufReader::read_line` after seeking to `off`: the bytes up to and
including the next newline (or end of file). -/
def readLineAt (data : List Nat) (off : Nat) : List Nat :=
  let t := (data.drop off).takeWhile (· ≠ 10)
  t ++ ((data.drop off).drop t.length).take 1

/-- Parse of one index line inside `load_outbound_range`'s loop. -/
def idxLineEntry (line : List Nat) : Option (Nat × Nat) :=
  let toks := splitWs line
  match toks.get? 0 with
  | none => none
  | some t0 =>
    match parseU32 t0 with
    | none => none
    | some sq =>
      match toks.get? 1 with
      | none => none
      | some t1 =>
        match parseU64 t1 with
        | none => none
        | some off => some (sq, off)

/-- `load_outbound_range`.  A missing index file yields `Ok(vec![])`; any
other I/O failure (here: a missing data file while the index exists) is an
error.  Lines that are blank, fail to deserialize, or fail base64 decoding
are skipped, mirroring the source's `continue`/`if let` chains. -/
def load_outbound_range (fs : Fs) (session : SessionKey) (begin_seq end_seq : Nat) :
    Except Unit (List (List Nat)) :=
  let stem := file_stem session
  match fs (idxName stem) with
  | none => .ok []
  | some idxContent =>
    let offsets := (linesOf idxContent).filterMap (fun line =>
      match idxLineEntry line with
      | some (sq, off) =>
        if begin_seq ≤ sq ∧ sq ≤ end_seq then some (sq, off) else none
      | none => none)
    let sorted := offsets.insertionSort (fun a b => a.1 ≤ b.1)
    match fs (jsonlName stem) with
    | none => .error ()
    | some data =>
      .ok (sorted.filterMap (fun p =>
        let line := readLineAt data p.2
        if line.all isWsByte then none
        else
          match parseRecordLine line with
          | some rec => base64Decode rec.payload_b64
          | none => none))

/-- `last_outbound_seq`: the maximum seq among parsable index lines. -/
def last_outbound_seq (fs : Fs) (session : SessionKey) : Except Unit (Option Nat) :=
  match fs (idxName (file_stem session)) with
  | none => .ok none
  | some content =>
    .ok ((linesOf content).foldl (fun last line =>
      match (splitWs line).get? 0 with
      | none => last
      | some t0 =>
        match parseU32 t0 with
        | some sq =>
          some (match last with
            | some m => max m sq
            | none => sq)
        | none => last) none)

/-! ## Derived forms used by the verification

`mkFrame bodyFs` is the frame `encode` produces when the body fields
(`35=` first) are exactly `bodyFs`; it is also the general shape `decode`
is analysed against, including bodies with duplicate tags, which `encode`
itself cannot produce. -/

def bodyLenOf (bodyFs : FieldMap) : Nat := (bodyFs.map fieldLen).sum

def framePrefix (bodyFs : FieldMap) : List Nat :=
  beginStringField ++ [SOH] ++ [57, 61] ++ natToBytes (bodyLenOf bodyFs) ++ [SOH]
    ++ (bodyFs.map (fun p => renderField p ++ [SOH])).flatten

def mkFrame (bodyFs : FieldMap) : List Nat :=
  framePrefix bodyFs ++ [49, 48, 61]
    ++ pad3 (compute_checksum (framePrefix bodyFs)) ++ [SOH]

/-- The map `decode`'s first loop builds from a list of (tag, value)
pairs: left-to-right `HashMap::insert`, later duplicates overwriting. -/
def mapOfFields (fs : FieldMap) : FieldMap :=
  fs.foldl (fun m p => insertField p.1 p.2 m) []

/-- A well-formed wire frame: some body-field list rendered by the codec,
with a BodyLength that fits `usize`. -/
def IsValidFrame (b : List Nat) : Prop :=
  ∃ bodyFs : FieldMap, b = mkFrame bodyFs ∧ bodyLenOf bodyFs < 2 ^ 64

/-- Repeated `try_extract_one` until it returns `none`.  Each successful
extraction consumes at least one byte, so `buf.length` steps always
suffice; the fuel only makes the recursion structural. -/
def extractAllFuel : Nat → List Nat → List (List Nat) × List Nat
  | 0, buf => ([], buf)
  | fuel + 1, buf =>
    match try_extract_one buf with
    | (none, _) => ([], buf)
    | (some f, rest) =>
      let p := extractAllFuel fuel rest
      (f :: p.1, p.2)

def extractAll (buf : List Nat) : List (List Nat) × List Nat :=
  extractAllFuel buf.length buf

/-- Per-field well-formedness for frame-level reasoning: the tag fits
`u32`, and the value is SOH-free valid UTF-8. -/
def FieldWF (p : Nat × List Nat) : Prop :=
  p.1 < 2 ^ 32 ∧ ¬ SOH ∈ p.2 ∧ utf8Valid p.2 = true

instance (p : Nat × List Nat) : Decidable (FieldWF p) := by
  unfold FieldWF
  infer_instance

/-- Well-formed message content, as constrained by the Rust types
(`u32` tags, SOH-free UTF-8 `String` values, distinct `HashMap` keys) and
by the requirement that the fields leave the standard header/trailer tags
8, 9, 10, 35 to the codec. -/
def WellFormed (m : FixMessage) : Prop :=
  (m.fields.map Prod.fst).Nodup
    ∧ (∀ p ∈ m.fields, FieldWF p ∧ ¬ p.1 ∈ ([8, 9, 10, 35] : List Nat))
    ∧ encodeBodyLen m < 2 ^ 64

instance (m : FixMessage) : Decidable (WellFormed m) := by
  unfold WellFormed
  infer_instance

/-- The `msg_type` values `encode` writes back out unchanged: every named
variant, and `Unknown("?")` (any other `Unknown` payload is collapsed to
`"?"` by `msg_type_as_str`). -/
def MsgTypeCodeFaithful (mt : FixMsgType) : Prop :=
  match mt with
  | .unknown s => s = [63]
  | _ => True

instance (mt : FixMsgType) : Decidable (MsgTypeCodeFaithful mt) := by
  unfold MsgTypeCodeFaithful
  cases mt <;> infer_instance

/-! ## Claim C1 -/

def c1WitnessMsg : FixMessage :=
  { begin_string := ascii "FIX.4.4", body_length := 0, msg_type := .logon,
    fields := [(49, [73]), (56, [65]), (108, [49]), (34, [49])] }

def c1CexMsg : FixMessage :=
  { begin_string := ascii "FIX.4.4", body_length := 0, msg_type := .unknown [88],
    fields := [] }

def c5Input : List Nat := mkFrame ((35, [48]) :: [(112, [97]), (112, [98])])

/-! ## Claim C6 -/

def c6Cfg : InitiatorConfig := ⟨ascii "I", ascii "A", 1⟩

def c6LogonBytes : List Nat :=
  encode (set_field (build_logon 1 (ascii "I") (ascii "A")) 34 (natToBytes 1))

/-- The byte run the claim asserts (49 and 56 before 34 and 108):
`35=A⟨SOH⟩49=I⟨SOH⟩56=A⟨SOH⟩34=1⟨SOH⟩108=1⟨SOH⟩`. -/
def c6ClaimedRun : List Nat :=
  [51, 53, 61, 65, 1, 52, 57, 61, 73, 1, 53, 54, 61, 65, 1,
   51, 52, 61, 49, 1, 49, 48, 56, 61, 49, 1]

/-- The byte run the encoder actually produces (ascending tag order):
`35=A⟨SOH⟩34=1⟨SOH⟩49=I⟨SOH⟩56=A⟨SOH⟩108=1⟨SOH⟩`. -/
def c6ActualRun : List Nat :=
  [51, 53, 61, 65, 1, 51, 52, 61, 49, 1, 52, 57, 61, 73, 1,
   53, 54, 61, 65, 1, 49, 48, 56, 61, 49, 1]

/-! ## Claim C10 -/

def c10KeyDot : SessionKey := ⟨ascii "A.B", ascii "T"⟩

def c10KeyUnd : SessionKey := ⟨ascii "A_B", ascii "T"⟩

def c10Fs : Fs :=
  flush_batch emptyFs
    [append_bytes c10KeyDot .outbound (some 1) 100 [80, 49],
     append_bytes c10KeyUnd .outbound (some 2) 200 [80, 50]]

def c2Cfg : InitiatorConfig := ⟨ascii "INIT", ascii "ACC", 30⟩

def c2State : SessState := ⟨2, 5, 0, none, []⟩

def c2GapFrame : List Nat :=
  encode (set_field (build_heartbeat none (ascii "ACC") (ascii "INIT")) 34 (natToBytes 7))

def c2WitnessMsg : FixMessage :=
  { begin_string := ascii "FIX.4.4", body_length := 25, msg_type := .heartbeat,
    fields := [(34, [55]), (49, [65, 67, 67]), (56, [73, 78, 73, 84])] }

def c3Frame : List Nat :=
  encode (set_field (build_sequence_reset 15 true (ascii "ACC") (ascii "INIT"))
    34 (natToBytes 11))

def c3State : SessState := ⟨2, 10, 0, none, []⟩

def c3WitnessMsg : FixMessage :=
  { begin_string := ascii "FIX.4.4", body_length := 38, msg_type := .sequenceReset,
    fields := [(34, [49, 49]), (36, [49, 53]), (49, [65, 67, 67]),
               (56, [73, 78, 73, 84]), (123, [89])] }

def c4P2 : List Nat := mkFrame [(35, [48]), (34, [50])]

def c4P4 : List Nat := mkFrame [(35, [48]), (34, [52])]

def c4State : SessState :=
  ⟨5, 4, 0, none, [⟨.outbound, some 2, 0, c4P2⟩, ⟨.outbound, some 4, 0, c4P4⟩]⟩

def c4RRFrame : List Nat := mkFrame [(35, [50]), (7, [50]), (16, [52])]

def c4DecodedMsg : FixMessage :=
  { begin_string := ascii "FIX.4.4", body_length := 14,
    msg_type := .resendRequest, fields := [(7, [50]), (16, [52])] }

/-- The record `append_bytes` enqueues for one outbound message carrying a
sequence number: `(seq, ts_millis, payload)`. -/
def recOf (key : SessionKey) (x : Nat × Nat × List Nat) : StoredMessageRecord :=
  append_bytes key .outbound (some x.1) x.2.1 x.2.2

/-- The journal data file contents after flushing `xs` from empty. -/
def dataOf (key : SessionKey) (xs : List (Nat × Nat × List Nat)) : List Nat :=
  (xs.map (fun x => recordJson (recOf key x) ++ [10])).flatten

/-- The index file contents after flushing `xs`, starting at offset `off0`. -/
def idxOf (key : SessionKey) (off0 : Nat) : List (Nat × Nat × List Nat) → List Nat
  | [] => []
  | x :: t =>
    (natToBytes x.1 ++ [32] ++ natToBytes off0 ++ [10])
      ++ idxOf key (off0 + ((recordJson (recOf key x)).length + 1)) t

/-- Annotate each element with its running offset. -/
def withOffsets (len : Nat × Nat × List Nat → Nat) (off0 : Nat) :
    List (Nat × Nat × List Nat) → List ((Nat × Nat × List Nat) × Nat)
  | [] => []
  | x :: t => (x, off0) :: withOffsets len (off0 + len x) t

/-! ## Theorems -/

/-! ### Lemmas about decimal rendering -/

theorem natToBytesCore_fuel (f₁ : Nat) :
    ∀ f₂ n, n ≤ f₁ → n ≤ f₂ → natToBytesCore f₁ n = natToBytesCore f₂ n := by
  induction f₁ with
  | zero =>
    intro f₂ n h1 _
    have hn : n = 0 := by omega
    subst hn
    cases f₂ with
    | zero => rfl
    | succ f => simp [natToBytesCore]
  | succ f₁ ih =>
    intro f₂ n h1 h2
    by_cases h : n < 10
    · cases f₂ with
      | zero =>
        have hn : n = 0 := by omega
        subst hn
        simp [natToBytesCore]
      | succ f => simp [natToBytesCore, h]
    · cases f₂ with
      | zero => omega
      | succ f =>
        simp only [natToBytesCore, if_neg h]
        rw [ih f (n / 10) (by omega) (by omega)]

theorem natToBytes_small (n : Nat) (h : n < 10) : natToBytes n = [n + 48] := by
  cases n with
  | zero => rfl
  | succ m => simp [natToBytes, natToBytesCore, h]

theorem natToBytes_step (n : Nat) (h : ¬ n < 10) :
    natToBytes n = natToBytes (n / 10) ++ [n % 10 + 48] := by
  obtain ⟨f, rfl⟩ : ∃ f, n = f + 1 := ⟨n - 1, by omega⟩
  rw [natToBytes, natToBytesCore, if_neg h, natToBytes]
  rw [natToBytesCore_fuel f ((f + 1) / 10) ((f + 1) / 10) (by omega) (by omega)]

theorem natToBytes_ne_nil (n : Nat) : natToBytes n ≠ [] := by
  by_cases h : n < 10
  · simp [natToBytes_small n h]
  · simp [natToBytes_step n h]

theorem natToBytes_digits (n : Nat) : ∀ b ∈ natToBytes n, 48 ≤ b ∧ b ≤ 57 := by
  induction n using Nat.strong_induction_on with
  | _ n ih =>
    intro b hb
    by_cases h : n < 10
    · rw [natToBytes_small n h] at hb
      have h2 : b = n + 48 := by simpa using hb
      omega
    · rw [natToBytes_step n h] at hb
      rcases List.mem_append.mp hb with h1 | h1
      · exact ih (n / 10) (Nat.div_lt_self (by omega) (by omega)) b h1
      · have h2 : b = n % 10 + 48 := by simpa using h1
        have h3 : n % 10 < 10 := Nat.mod_lt n (by omega)
        omega

theorem digitsVal_append (s t : List Nat) :
    digitsVal (s ++ t) = t.foldl (fun a b => a * 10 + (b - 48)) (digitsVal s) := by
  simp [digitsVal, List.foldl_append]

theorem digitsVal_natToBytes (n : Nat) : digitsVal (natToBytes n) = n := by
  induction n using Nat.strong_induction_on with
  | _ n ih =>
    by_cases h : n < 10
    · rw [natToBytes_small n h]
      simp [digitsVal]
    · rw [natToBytes_step n h, digitsVal_append]
      have h1 := ih (n / 10) (Nat.div_lt_self (by omega) (by omega))
      simp only [List.foldl_cons, List.foldl_nil, h1]
      omega

theorem allDigits_natToBytes (n : Nat) : allDigits (natToBytes n) = true := by
  simp only [allDigits, List.all_eq_true]
  intro b hb
  have := natToBytes_digits n b hb
  simp [isDigitByte]
  omega

theorem stripPlus_of_digits (s : List Nat) (h : ∀ b ∈ s, 48 ≤ b ∧ b ≤ 57) :
    stripPlus s = s := by
  cases s with
  | nil => rfl
  | cons b t =>
    have hb := h b (by simp)
    simp only [stripPlus]
    split
    · rename_i heq
      injection heq with h1 h2
      omega
    · rfl

theorem stripPlus_natToBytes (n : Nat) : stripPlus (natToBytes n) = natToBytes n :=
  stripPlus_of_digits _ (natToBytes_digits n)

theorem parseNatBounded_natToBytes (bound n : Nat) (h : n < bound) :
    parseNatBounded bound (natToBytes n) = some n := by
  simp [parseNatBounded, stripPlus_natToBytes, natToBytes_ne_nil,
    allDigits_natToBytes, digitsVal_natToBytes, h]

/-! ### `pad3` lemmas -/

theorem natToBytes_length_le (k n : Nat) (hn : n < 10 ^ k) (hk : 1 ≤ k) :
    (natToBytes n).length ≤ k := by
  induction k generalizing n with
  | zero => omega
  | succ k ih =>
    by_cases h : n < 10
    · rw [natToBytes_small n h]
      simp
    · rw [natToBytes_step n h]
      have hk1 : 1 ≤ k := by
        by_contra hc
        have : k = 0 := by omega
        subst this
        simp at hn
        omega
      have hdiv : n / 10 < 10 ^ k := by
        rw [Nat.pow_succ] at hn
        exact Nat.div_lt_of_lt_mul (by omega)
      have := ih (n / 10) hdiv hk1
      simp
      omega

theorem pad3_length (n : Nat) (h : n < 1000) : (pad3 n).length = 3 := by
  have h3 : (natToBytes n).length ≤ 3 := natToBytes_length_le 3 n (by omega) (by omega)
  simp [pad3]
  omega

theorem digitsVal_zeros_append (k : Nat) (s : List Nat) :
    digitsVal (List.replicate k 48 ++ s) = digitsVal s := by
  induction k with
  | zero => simp
  | succ k ih =>
    simp only [List.replicate_succ, List.cons_append]
    simp only [digitsVal, List.foldl_cons] at ih ⊢
    simpa using ih

theorem pad3_digits (n : Nat) : ∀ b ∈ pad3 n, 48 ≤ b ∧ b ≤ 57 := by
  intro b hb
  rcases List.mem_append.mp hb with h | h
  · simp at h
    omega
  · exact natToBytes_digits n b h

theorem parseU8_pad3 (n : Nat) (h : n < 256) : parseU8 (pad3 n) = some n := by
  have hd : allDigits (pad3 n) = true := by
    simp only [allDigits, List.all_eq_true]
    intro b hb
    have := pad3_digits n b hb
    simp [isDigitByte]
    omega
  have hv : digitsVal (pad3 n) = n := by
    rw [pad3, digitsVal_zeros_append, digitsVal_natToBytes]
  have hne : pad3 n ≠ [] := by
    simp [pad3, natToBytes_ne_nil]
  have hsp : stripPlus (pad3 n) = pad3 n := stripPlus_of_digits _ (pad3_digits n)
  simp [parseU8, parseNatBounded, hsp, hne, hd, hv, h]

theorem utf8ValidCore_fuel (f₁ : Nat) :
    ∀ f₂ l, l.length ≤ f₁ → l.length ≤ f₂ →
      utf8ValidCore f₁ l = utf8ValidCore f₂ l := by
  induction f₁ with
  | zero =>
    intro f₂ l h1 _
    have : l = [] := by
      cases l with
      | nil => rfl
      | cons a t => simp at h1
    subst this
    cases f₂ <;> rfl
  | succ f₁ ih =>
    intro f₂ l h1 h2
    cases l with
    | nil => cases f₂ <;> rfl
    | cons b rest =>
      cases f₂ with
      | zero => simp at h2
      | succ f₂ =>
        simp only [utf8ValidCore]
        cases hc : utf8CharLen b rest with
        | none => rfl
        | some k =>
          have hd : (rest.drop k).length ≤ f₁ := by
            simp at h1 ⊢
            omega
          have hd2 : (rest.drop k).length ≤ f₂ := by
            simp at h2 ⊢
            omega
          exact ih f₂ (rest.drop k) hd hd2

theorem utf8Valid_step (b : Nat) (rest : List Nat) (k : Nat)
    (hc : utf8CharLen b rest = some k) :
    utf8Valid (b :: rest) = utf8Valid (rest.drop k) := by
  rw [utf8Valid, List.length_cons, utf8ValidCore, hc, utf8Valid]
  exact utf8ValidCore_fuel rest.length ((rest.drop k).length) (rest.drop k)
    (by simp) (by omega)

theorem utf8Valid_cons_ascii (b : Nat) (rest : List Nat) (h : b < 128) :
    utf8Valid (b :: rest) = utf8Valid rest := by
  have hc : utf8CharLen b rest = some 0 := by
    simp [utf8CharLen, h]
  rw [utf8Valid_step b rest 0 hc, List.drop_zero]

theorem utf8Valid_ascii_append (s t : List Nat) (h : allAscii s = true) :
    utf8Valid (s ++ t) = utf8Valid t := by
  induction s with
  | nil => rfl
  | cons b s ih =>
    simp only [allAscii, List.all_cons, Bool.and_eq_true, decide_eq_true_eq] at h
    rw [List.cons_append, utf8Valid_cons_ascii _ _ h.1]
    exact ih (by simp [allAscii, h.2])

theorem utf8Valid_of_ascii (s : List Nat) (h : allAscii s = true) :
    utf8Valid s = true := by
  have h1 := utf8Valid_ascii_append s [] h
  rw [List.append_nil] at h1
  rw [h1]
  rfl

theorem allAscii_append (s t : List Nat) :
    allAscii (s ++ t) = (allAscii s && allAscii t) := by
  simp [allAscii]

theorem allAscii_natToBytes (n : Nat) : allAscii (natToBytes n) = true := by
  simp only [allAscii, List.all_eq_true, decide_eq_true_eq]
  intro b hb
  have := natToBytes_digits n b hb
  omega

theorem wrapSum_eq_sum_mod (l : List Nat) : wrapSum l = l.sum % 256 := by
  have h : ∀ a, a < 256 → l.foldl (fun a b => (a + b) % 256) a = (a + l.sum) % 256 := by
    induction l with
    | nil =>
      intro a ha
      simp [Nat.mod_eq_of_lt ha]
    | cons b t ih =>
      intro a ha
      simp only [List.foldl_cons, List.sum_cons]
      rw [ih ((a + b) % 256) (Nat.mod_lt _ (by omega)), Nat.mod_add_mod, Nat.add_assoc]
  simp [wrapSum, h 0 (by omega)]

/-! ## Field-map lemmas -/

theorem getField_insertField_self (k : Nat) (v : List Nat) (m : FieldMap) :
    getField k (insertField k v m) = some v := by
  induction m with
  | nil => simp [insertField, getField]
  | cons p rest ih =>
    by_cases h : p.1 = k
    · simp [insertField, getField, h]
    · simp [insertField, getField, h, ih]

theorem insertField_append_left (k : Nat) (v : List Nat) (m0 acc : FieldMap)
    (h : ¬ k ∈ m0.map Prod.fst) :
    insertField k v (m0 ++ acc) = m0 ++ insertField k v acc := by
  induction m0 with
  | nil => simp
  | cons p rest ih =>
    simp only [List.map_cons, List.mem_cons] at h
    push_neg at h
    have h1 : ¬ p.1 = k := fun hc => h.1 hc.symm
    simp only [List.cons_append, insertField, if_neg h1, List.append_eq]
    rw [ih h.2]

theorem foldInsert_append_left (fs : FieldMap) :
    ∀ m0 acc : FieldMap, (∀ p ∈ fs, ¬ p.1 ∈ m0.map Prod.fst) →
      fs.foldl (fun m p => insertField p.1 p.2 m) (m0 ++ acc)
        = m0 ++ fs.foldl (fun m p => insertField p.1 p.2 m) acc := by
  induction fs with
  | nil => simp
  | cons q rest ih =>
    intro m0 acc h
    simp only [List.foldl_cons]
    rw [insertField_append_left q.1 q.2 m0 acc (h q (by simp)),
      ih m0 (insertField q.1 q.2 acc) (fun p hp => h p (by simp [hp]))]

theorem insertField_not_mem (k : Nat) (v : List Nat) (m : FieldMap)
    (h : ¬ k ∈ m.map Prod.fst) : insertField k v m = m ++ [(k, v)] := by
  have h1 := insertField_append_left k v m [] h
  simpa using h1

theorem mapOfFields_nodup (fs : FieldMap) (h : (fs.map Prod.fst).Nodup) :
    mapOfFields fs = fs := by
  induction fs with
  | nil => rfl
  | cons p rest ih =>
    simp only [List.map_cons, List.nodup_cons] at h
    simp only [mapOfFields, List.foldl_cons, insertField]
    have h1 : rest.foldl (fun m q => insertField q.1 q.2 m) ([(p.1, p.2)] ++ [])
        = [(p.1, p.2)] ++ rest.foldl (fun m q => insertField q.1 q.2 m) [] := by
      refine foldInsert_append_left rest [(p.1, p.2)] [] ?_
      intro q hq
      simp only [List.map_cons, List.map_nil, List.mem_singleton]
      intro hc
      exact h.1 (hc ▸ List.mem_map_of_mem Prod.fst hq)
    simp only [List.append_nil] at h1
    rw [h1]
    have h2 := ih h.2
    rw [mapOfFields] at h2
    rw [h2]
    simp

/-! ## Rendering and parsing of single fields -/

theorem soh_not_mem_natToBytes (n : Nat) : ¬ SOH ∈ natToBytes n := by
  intro h
  have := natToBytes_digits n SOH h
  simp [SOH] at this

theorem eq61_not_mem_natToBytes (n : Nat) : ¬ 61 ∈ natToBytes n := by
  intro h
  have := natToBytes_digits n 61 h
  omega

theorem splitFirstEq_no_eq (a : List Nat) (v : List Nat) (h : ¬ 61 ∈ a) :
    splitFirstEq (a ++ 61 :: v) = (a, some v) := by
  induction a with
  | nil => simp [splitFirstEq]
  | cons b rest ih =>
    simp only [List.mem_cons] at h
    push_neg at h
    have h1 : ¬ b = 61 := fun hc => h.1 hc.symm
    simp only [List.cons_append, splitFirstEq, if_neg h1, List.append_eq]
    rw [ih h.2]

theorem renderField_eq (p : Nat × List Nat) :
    renderField p = natToBytes p.1 ++ 61 :: p.2 := by
  simp [renderField]

theorem splitFirstEq_renderField (p : Nat × List Nat) :
    splitFirstEq (renderField p) = (natToBytes p.1, some p.2) := by
  rw [renderField_eq]
  exact splitFirstEq_no_eq _ _ (eq61_not_mem_natToBytes p.1)

theorem soh_not_mem_renderField (p : Nat × List Nat) (h : ¬ SOH ∈ p.2) :
    ¬ SOH ∈ renderField p := by
  rw [renderField_eq]
  intro hc
  rcases List.mem_append.mp hc with h1 | h1
  · exact soh_not_mem_natToBytes p.1 h1
  · rcases List.mem_cons.mp h1 with h2 | h2
    · simp [SOH] at h2
    · exact h h2

theorem utf8Valid_renderField (p : Nat × List Nat) (h : utf8Valid p.2 = true) :
    utf8Valid (renderField p) = true := by
  have ha : allAscii (natToBytes p.1 ++ [61]) = true := by
    rw [allAscii_append, allAscii_natToBytes p.1]
    simp [allAscii]
  have h2 : renderField p = (natToBytes p.1 ++ [61]) ++ p.2 := by
    simp [renderField]
  rw [h2, utf8Valid_ascii_append _ _ ha, h]

theorem length_renderField (p : Nat × List Nat) :
    (renderField p).length + 1 = fieldLen p := by
  simp [renderField, fieldLen]
  omega

/-! ## The first decode loop on rendered fields -/

theorem buildMap_map_renderField (fs : FieldMap) :
    ∀ m : FieldMap, (∀ p ∈ fs, FieldWF p) →
      buildMap (fs.map renderField) m
        = .ok (fs.foldl (fun m p => insertField p.1 p.2 m) m) := by
  induction fs with
  | nil => intro m _; rfl
  | cons p rest ih =>
    intro m h
    obtain ⟨hp1, _, hp3⟩ := h p (by simp)
    simp only [List.map_cons, buildMap, utf8Valid_renderField p hp3, if_pos,
      splitFirstEq_renderField]
    rw [show parseU32 (natToBytes p.1) = some p.1 from
      parseNatBounded_natToBytes _ _ hp1]
    simp only [List.foldl_cons]
    exact ih (insertField p.1 p.2 m) (fun q hq => h q (by simp [hq]))

/-! ## The BodyLength recount loop -/

theorem countBody_true_true (l : List (List Nat)) :
    countBody l true true = (l.map (fun f => f.length + 1)).sum := by
  induction l with
  | nil => rfl
  | cons f rest ih =>
    simp only [countBody, List.map_cons, List.sum_cons]
    simp only [not_true_eq_false, false_and, if_false, ih]

theorem countBody_step8 (f : List Nat) (l : List (List Nat)) (seen9 : Bool)
    (h : [56, 61].isPrefixOf f = true) :
    countBody (f :: l) false seen9 = countBody l true seen9 := by
  rw [countBody]
  simp [h]

theorem countBody_step9 (f : List Nat) (l : List (List Nat))
    (h : [57, 61].isPrefixOf f = true) :
    countBody (f :: l) true false = countBody l true true := by
  rw [countBody]
  simp [h]

theorem countBody_renders (bodyFs : FieldMap) (dL : List Nat) :
    countBody (renderField (8, ascii "FIX.4.4") :: ([57, 61] ++ dL)
        :: bodyFs.map renderField) false false
      = bodyLenOf bodyFs := by
  have h8 : [56, 61].isPrefixOf (renderField (8, ascii "FIX.4.4")) = true := by decide
  have h9 : [57, 61].isPrefixOf ([57, 61] ++ dL) = true := by
    rw [List.isPrefixOf_iff_prefix]
    exact List.prefix_append _ _
  rw [countBody_step8 _ _ _ h8, countBody_step9 _ _ h9, countBody_true_true,
    bodyLenOf, List.map_map]
  exact congrArg List.sum (List.map_congr_left (fun p _ => length_renderField p))

/-! ## Frame shape -/

theorem flatten_concat_sep (x : Nat) (L : List (List Nat)) (h : L ≠ []) :
    (L.map (· ++ [x])).flatten = [x].intercalate L ++ [x] := by
  induction L with
  | nil => simp at h
  | cons a t ih =>
    cases t with
    | nil => simp [List.intercalate]
    | cons b t' =>
      rw [List.map_cons, List.flatten_cons, ih (by simp)]
      simp [List.intercalate, List.intersperse]

theorem render8_eq : renderField (8, ascii "FIX.4.4") = beginStringField := by decide

theorem render9_eq (d : List Nat) : renderField (9, d) = [57, 61] ++ d := by
  rw [renderField_eq]
  rw [show natToBytes 9 = [57] from natToBytes_small 9 (by omega)]
  rfl

theorem mkFrame_eq_flatten (bodyFs : FieldMap) :
    mkFrame bodyFs
      = (((renderField (8, ascii "FIX.4.4")
            :: renderField (9, natToBytes (bodyLenOf bodyFs))
            :: bodyFs.map renderField)
          ++ [[49, 48, 61] ++ pad3 (compute_checksum (framePrefix bodyFs))]).map
            (· ++ [SOH])).flatten := by
  rw [render8_eq, render9_eq]
  simp only [mkFrame, framePrefix, List.map_append, List.map_cons, List.map_nil,
    List.flatten_append, List.flatten_cons, List.flatten_nil, List.map_map]
  simp [Function.comp_def, List.append_assoc]

theorem soh_not_mem_pad3 (n : Nat) : ¬ SOH ∈ pad3 n := by
  intro h
  have := pad3_digits n SOH h
  simp [SOH] at this

theorem trailer_no_soh (n : Nat) : ¬ SOH ∈ ([49, 48, 61] ++ pad3 n) := by
  intro h
  rcases List.mem_append.mp h with h1 | h1
  · simp [SOH] at h1
  · exact soh_not_mem_pad3 n h1

theorem allAscii_pad3 (n : Nat) : allAscii (pad3 n) = true := by
  simp only [allAscii, List.all_eq_true, decide_eq_true_eq]
  intro b hb
  have := pad3_digits n b hb
  omega

theorem checkTrailer_pad3 (ck : Nat) (h : ck < 256) :
    checkTrailer ([49, 48, 61] ++ pad3 ck) = .ok ck := by
  have hu : utf8Valid ([49, 48, 61] ++ pad3 ck) = true := by
    apply utf8Valid_of_ascii
    rw [allAscii_append, allAscii_pad3]
    simp [allAscii]
  have hp : [49, 48, 61].isPrefixOf ([49, 48, 61] ++ pad3 ck) = true := by
    rw [List.isPrefixOf_iff_prefix]
    exact List.prefix_append _ _
  rw [checkTrailer, if_pos hu, if_pos hp]
  have hd : List.drop 3 ([49, 48, 61] ++ pad3 ck) = pad3 ck := by
    simp
  rw [hd, parseU8_pad3 ck h]

theorem getField_cons_self (k : Nat) (v : List Nat) (rest : FieldMap) :
    getField k ((k, v) :: rest) = some v := by
  simp [getField]

theorem getField_cons_ne (k k' : Nat) (v : List Nat) (rest : FieldMap) (h : ¬ k' = k) :
    getField k ((k', v) :: rest) = getField k rest := by
  simp [getField, h]

theorem eraseKey_cons_self (k : Nat) (v : List Nat) (rest : FieldMap) :
    eraseKey k ((k, v) :: rest) = rest := by
  simp [eraseKey]

theorem eraseKey_cons_ne (k k' : Nat) (v : List Nat) (rest : FieldMap) (h : ¬ k' = k) :
    eraseKey k ((k', v) :: rest) = (k', v) :: eraseKey k rest := by
  simp [eraseKey, h]

theorem fieldWF_beginString : FieldWF (8, ascii "FIX.4.4") := by decide

theorem fieldWF_digits (k n : Nat) (hk : k < 2 ^ 32) : FieldWF (k, natToBytes n) :=
  ⟨hk, soh_not_mem_natToBytes n, utf8Valid_of_ascii _ (allAscii_natToBytes n)⟩

theorem foldInsert_header (mt : List Nat) (fs : FieldMap) (a b : List Nat)
    (h8 : ¬ 8 ∈ fs.map Prod.fst) (h9 : ¬ 9 ∈ fs.map Prod.fst)
    (h35 : ¬ 35 ∈ fs.map Prod.fst) :
    List.foldl (fun m p => insertField p.1 p.2 m) []
        ((8, a) :: (9, b) :: (35, mt) :: fs)
      = [(8, a), (9, b), (35, mt)] ++ mapOfFields fs := by
  simp only [List.foldl_cons]
  rw [show insertField 8 a [] = [(8, a)] from rfl]
  rw [show insertField 9 b [(8, a)] = [(8, a), (9, b)] by simp [insertField]]
  rw [show insertField 35 mt [(8, a), (9, b)] = [(8, a), (9, b), (35, mt)] by
    simp [insertField]]
  have h := foldInsert_append_left fs [(8, a), (9, b), (35, mt)] []
    (by
      intro p hp
      simp only [List.map_cons, List.map_nil, List.mem_cons, List.mem_singleton]
      push_neg
      refine ⟨?_, ?_, ?_, by simp⟩
      · intro hc
        exact h8 (hc ▸ List.mem_map_of_mem Prod.fst hp)
      · intro hc
        exact h9 (hc ▸ List.mem_map_of_mem Prod.fst hp)
      · intro hc
        exact h35 (hc ▸ List.mem_map_of_mem Prod.fst hp))
  simp only [List.append_nil] at h
  rw [h]
  rfl

theorem decodeFields_renders (mt : List Nat) (fs : FieldMap) (L : Nat)
    (hL : L = bodyLenOf ((35, mt) :: fs))
    (hmts : ¬ SOH ∈ mt) (hmtu : utf8Valid mt = true)
    (hfs : ∀ p ∈ fs, FieldWF p)
    (h8 : ¬ 8 ∈ fs.map Prod.fst) (h9 : ¬ 9 ∈ fs.map Prod.fst)
    (h35 : ¬ 35 ∈ fs.map Prod.fst)
    (hlen : L < 2 ^ 64) :
    decodeFields (renderField (8, ascii "FIX.4.4") :: renderField (9, natToBytes L)
        :: ((35, mt) :: fs).map renderField)
      = .ok { begin_string := ascii "FIX.4.4", body_length := L,
              msg_type := parse_msg_type mt, fields := mapOfFields fs } := by
  have hwf : ∀ p ∈ (8, ascii "FIX.4.4") :: (9, natToBytes L) :: (35, mt) :: fs, FieldWF p := by
    intro p hp
    rcases List.mem_cons.mp hp with h1 | h1
    · exact h1 ▸ fieldWF_beginString
    · rcases List.mem_cons.mp h1 with h2 | h2
      · exact h2 ▸ fieldWF_digits 9 L (by omega)
      · rcases List.mem_cons.mp h2 with h3 | h3
        · exact h3 ▸ ⟨by omega, hmts, hmtu⟩
        · exact hfs p h3
  have hmap0 : buildMap (((8, ascii "FIX.4.4") :: (9, natToBytes L) :: (35, mt) :: fs).map
      renderField) [] = .ok ([(8, ascii "FIX.4.4"), (9, natToBytes L), (35, mt)]
        ++ mapOfFields fs) := by
    rw [buildMap_map_renderField _ [] hwf, foldInsert_header mt fs _ _ h8 h9 h35]
  have hlist : renderField (8, ascii "FIX.4.4") :: renderField (9, natToBytes L)
      :: ((35, mt) :: fs).map renderField
      = ((8, ascii "FIX.4.4") :: (9, natToBytes L) :: (35, mt) :: fs).map renderField := by
    simp
  have hget8 : getField 8 ([(8, ascii "FIX.4.4"), (9, natToBytes L), (35, mt)]
      ++ mapOfFields fs) = some (ascii "FIX.4.4") := getField_cons_self ..
  have hget9 : getField 9 ([(8, ascii "FIX.4.4"), (9, natToBytes L), (35, mt)]
      ++ mapOfFields fs) = some (natToBytes L) := by
    rw [List.cons_append, getField_cons_ne 9 8 _ _ (by omega), List.cons_append,
      getField_cons_self]
  have hget35 : getField 35 ([(8, ascii "FIX.4.4"), (9, natToBytes L), (35, mt)]
      ++ mapOfFields fs) = some mt := by
    rw [List.cons_append, getField_cons_ne 35 8 _ _ (by omega), List.cons_append,
      getField_cons_ne 35 9 _ _ (by omega), List.cons_append, getField_cons_self]
  have herase : eraseKey 35 (eraseKey 9 (eraseKey 8
      ([(8, ascii "FIX.4.4"), (9, natToBytes L), (35, mt)] ++ mapOfFields fs)))
      = mapOfFields fs := by
    rw [List.cons_append, eraseKey_cons_self, List.cons_append, eraseKey_cons_self,
      List.cons_append, eraseKey_cons_self, List.nil_append]
  have hcount : countBody (((8, ascii "FIX.4.4") :: (9, natToBytes L) :: (35, mt) :: fs).map
      renderField) false false = bodyLenOf ((35, mt) :: fs) := by
    have h := countBody_renders ((35, mt) :: fs) (natToBytes L)
    rw [← render9_eq] at h
    rw [List.map_cons, List.map_cons]
    exact h
  have hparse : parseUsize (natToBytes L) = some L := parseNatBounded_natToBytes _ _ hlen
  rw [hlist, decodeFields, hmap0]
  simp only [hget8, hget9, hget35, hparse, hcount, ← hL, herase]
  simp

theorem decode_mkFrame_outer (bodyFs : FieldMap)
    (hnof : ∀ p ∈ bodyFs, ¬ SOH ∈ p.2) :
    decode (mkFrame bodyFs)
      = decodeFields (renderField (8, ascii "FIX.4.4")
          :: renderField (9, natToBytes (bodyLenOf bodyFs))
          :: bodyFs.map renderField) := by
  set FS := renderField (8, ascii "FIX.4.4")
      :: renderField (9, natToBytes (bodyLenOf bodyFs)) :: bodyFs.map renderField with hFS
  set TR := [49, 48, 61] ++ pad3 (compute_checksum (framePrefix bodyFs)) with hTR
  have hnos : ∀ l ∈ FS ++ [TR], ¬ SOH ∈ l := by
    intro l hl
    rcases List.mem_append.mp hl with h1 | h1
    · rw [hFS] at h1
      rcases List.mem_cons.mp h1 with h2 | h2
      · subst h2
        decide
      · rcases List.mem_cons.mp h2 with h3 | h3
        · subst h3
          rw [render9_eq]
          intro hc
          rcases List.mem_append.mp hc with h4 | h4
          · simp [SOH] at h4
          · exact soh_not_mem_natToBytes _ h4
        · obtain ⟨p, hp, rfl⟩ := List.mem_map.mp h3
          exact soh_not_mem_renderField _ (hnof p hp)
    · rw [List.mem_singleton] at h1
      subst h1
      rw [hTR]
      exact trailer_no_soh _
  have hflat : mkFrame bodyFs = ((FS ++ [TR]).map (· ++ [SOH])).flatten := by
    rw [hFS, hTR]
    exact mkFrame_eq_flatten bodyFs
  have hjoin : ((FS ++ [TR]).map (· ++ [SOH])).flatten
      = [SOH].intercalate (FS ++ [TR]) ++ [SOH] :=
    flatten_concat_sep SOH _ (by simp [hFS])
  have hlast : (mkFrame bodyFs).getLast? = some SOH := by
    rw [hflat, hjoin]
    exact List.getLast?_concat _
  have hsplit : (mkFrame bodyFs).dropLast.splitOn SOH = FS ++ [TR] := by
    rw [hflat, hjoin, List.dropLast_concat]
    exact List.splitOn_intercalate _ SOH hnos (by simp [hFS])
  have hfl : (FS ++ [TR]).getLast? = some TR := List.getLast?_concat _
  have htrl : checkTrailer TR = .ok (compute_checksum (framePrefix bodyFs)) := by
    rw [hTR]
    exact checkTrailer_pad3 _ (Nat.mod_lt _ (by omega))
  have hshape : mkFrame bodyFs = framePrefix bodyFs ++ (TR ++ [SOH]) := by
    rw [hTR]
    simp [mkFrame, List.append_assoc]
  have htake : (mkFrame bodyFs).take ((mkFrame bodyFs).length - (TR.length + 1))
      = framePrefix bodyFs := by
    rw [hshape]
    have h1 : (framePrefix bodyFs ++ (TR ++ [SOH])).length - (TR.length + 1)
        = (framePrefix bodyFs).length := by
      simp
    rw [h1, List.take_left]
  have hdropl : (FS ++ [TR]).dropLast = FS := List.dropLast_concat ..
  rw [decode]
  simp only [hlast, hsplit, hfl, htrl, htake, hdropl, eq_self_iff_true, if_true]

/-- The master decode lemma: decoding a rendered frame whose body fields
are `35=<mt>` followed by `fs` (duplicates in `fs` allowed) succeeds and
returns the overwrite-insert map of `fs`. -/
theorem decode_mkFrame (mt : List Nat) (fs : FieldMap)
    (hmts : ¬ SOH ∈ mt) (hmtu : utf8Valid mt = true)
    (hfs : ∀ p ∈ fs, FieldWF p)
    (h8 : ¬ 8 ∈ fs.map Prod.fst) (h9 : ¬ 9 ∈ fs.map Prod.fst)
    (h35 : ¬ 35 ∈ fs.map Prod.fst)
    (hlen : bodyLenOf ((35, mt) :: fs) < 2 ^ 64) :
    decode (mkFrame ((35, mt) :: fs))
      = .ok { begin_string := ascii "FIX.4.4",
              body_length := bodyLenOf ((35, mt) :: fs),
              msg_type := parse_msg_type mt,
              fields := mapOfFields fs } := by
  rw [decode_mkFrame_outer ((35, mt) :: fs) ?hno]
  case hno =>
    intro p hp
    rcases List.mem_cons.mp hp with h1 | h1
    · rw [h1]
      exact hmts
    · exact (hfs p h1).2.1
  exact decodeFields_renders mt fs _ rfl hmts hmtu hfs h8 h9 h35 hlen

theorem encode_eq_mkFrame (m : FixMessage) : encode m = mkFrame (bodyFieldsOf m) := by
  have h : wrapSum (encodeChecksumRegion m) = compute_checksum (encodeChecksumRegion m) := by
    rw [wrapSum_eq_sum_mod, compute_checksum]
  rw [encode, h]
  rfl

theorem msg_type_as_str_wf (mt : FixMsgType) :
    ¬ SOH ∈ msg_type_as_str mt ∧ utf8Valid (msg_type_as_str mt) = true := by
  cases mt with
  | unknown s =>
    constructor
    · show ¬ SOH ∈ [63]
      decide
    · show utf8Valid [63] = true
      decide
  | logon => decide
  | heartbeat => decide
  | testRequest => decide
  | logout => decide
  | resendRequest => decide
  | sequenceReset => decide

theorem parse_msg_type_as_str (mt : FixMsgType) (h : MsgTypeCodeFaithful mt) :
    parse_msg_type (msg_type_as_str mt) = mt := by
  cases mt with
  | unknown s =>
    rw [show s = [63] from h]
    decide
  | logon => decide
  | heartbeat => decide
  | testRequest => decide
  | logout => decide
  | resendRequest => decide
  | sequenceReset => decide

/-- A well-formed message whose `msg_type` code survives
`msg_type_as_str` round-trips through `encode` then `decode`: same
`msg_type`, and the same `fields` up to order. -/
theorem roundtrip_encode_decode (m : FixMessage) (hwf : WellFormed m)
    (hmt : MsgTypeCodeFaithful m.msg_type) :
    ∃ m', decode (encode m) = .ok m' ∧ m'.msg_type = m.msg_type
      ∧ m'.fields.Perm m.fields := by
  obtain ⟨hnd, hps, hlen⟩ := hwf
  have hperm : (sortFields m.fields).Perm m.fields := List.perm_insertionSort _ _
  have hmem : ∀ p, p ∈ sortFields m.fields → p ∈ m.fields := fun p hp => hperm.mem_iff.mp hp
  have hfs : ∀ p ∈ sortFields m.fields, FieldWF p := fun p hp => (hps p (hmem p hp)).1
  have htag : ∀ k, k ∈ ([8, 9, 10, 35] : List Nat) → ¬ k ∈ (sortFields m.fields).map Prod.fst := by
    intro k hk hc
    obtain ⟨p, hp, hpk⟩ := List.mem_map.mp hc
    exact (hps p (hmem p hp)).2 (hpk ▸ hk)
  have hnd' : ((sortFields m.fields).map Prod.fst).Nodup :=
    ((hperm.map Prod.fst).nodup_iff).mpr hnd
  have hlen' : bodyLenOf ((35, msg_type_as_str m.msg_type) :: sortFields m.fields) < 2 ^ 64 :=
    hlen
  obtain ⟨hs, hu⟩ := msg_type_as_str_wf m.msg_type
  refine ⟨{ begin_string := ascii "FIX.4.4",
            body_length := bodyLenOf ((35, msg_type_as_str m.msg_type) :: sortFields m.fields),
            msg_type := parse_msg_type (msg_type_as_str m.msg_type),
            fields := mapOfFields (sortFields m.fields) }, ?_, ?_, ?_⟩
  · rw [encode_eq_mkFrame]
    exact decode_mkFrame (msg_type_as_str m.msg_type) (sortFields m.fields) hs hu hfs
      (htag 8 (by simp)) (htag 9 (by simp)) (htag 35 (by simp)) hlen'
  · exact parse_msg_type_as_str m.msg_type hmt
  · rw [mapOfFields_nodup _ hnd']
    exact hperm

/-- C1 (amended).  A well-formed message whose `msg_type` code survives
`msg_type_as_str` (every named variant, and `Unknown("?")`) round-trips
through `encode` then `decode`: same `msg_type`, and the same `fields` up
to order. -/
theorem c1_encode_decode_roundtrip (m : FixMessage) (hwf : WellFormed m)
    (hmt : MsgTypeCodeFaithful m.msg_type) :
    ∃ m', decode (encode m) = .ok m' ∧ m'.msg_type = m.msg_type
      ∧ m'.fields.Perm m.fields :=
  roundtrip_encode_decode m hwf hmt

/-- C1 witness: the amended round-trip theorem applied to a concrete
well-formed Logon message. -/
theorem c1_witness :
    (WellFormed c1WitnessMsg ∧ MsgTypeCodeFaithful c1WitnessMsg.msg_type)
    ∧ ∃ m', decode (encode c1WitnessMsg) = .ok m'
        ∧ m'.msg_type = c1WitnessMsg.msg_type
        ∧ m'.fields.Perm c1WitnessMsg.fields :=
  ⟨⟨by decide, by decide⟩,
    c1_encode_decode_roundtrip c1WitnessMsg (by decide) (by decide)⟩

/-- C1 counterexample: for the well-formed message whose `msg_type` is
`Unknown("X")`, `decode (encode m)` succeeds but returns `Unknown("?")`
(`encode` writes `35=?` for every `Unknown`), so the round-trip does not
return the same `msg_type` variant. -/
theorem c1_counterexample :
    WellFormed c1CexMsg
    ∧ decode (encode c1CexMsg)
        = .ok { begin_string := ascii "FIX.4.4", body_length := 5,
                msg_type := .unknown [63], fields := [] }
    ∧ FixMsgType.unknown [63] ≠ c1CexMsg.msg_type :=
  ⟨by decide, by decide, by decide⟩

/-! ## Claim C5 -/

/-- C5 (amended): `decode` does not reject duplicate tags.  A frame in
which tag `t` occurs twice decodes successfully, and the map silently
keeps the value of the later occurrence (`HashMap::insert` overwrites). -/
theorem c5_duplicate_tag_last_wins (t : Nat) (v1 v2 mt : List Nat)
    (ht32 : t < 2 ^ 32) (ht : ¬ t ∈ ([8, 9, 35] : List Nat))
    (hv1s : ¬ SOH ∈ v1) (hv1u : utf8Valid v1 = true)
    (hv2s : ¬ SOH ∈ v2) (hv2u : utf8Valid v2 = true)
    (hmts : ¬ SOH ∈ mt) (hmtu : utf8Valid mt = true)
    (hlen : bodyLenOf ((35, mt) :: [(t, v1), (t, v2)]) < 2 ^ 64) :
    ∃ m', decode (mkFrame ((35, mt) :: [(t, v1), (t, v2)])) = .ok m'
      ∧ getField t m'.fields = some v2 := by
  have hne : ∀ k, k ∈ ([8, 9, 35] : List Nat) → ¬ k ∈ ([(t, v1), (t, v2)] : FieldMap).map Prod.fst := by
    intro k hk hc
    simp only [List.map_cons, List.map_nil, List.mem_cons, List.mem_singleton] at hc
    rcases hc with h1 | h1 | h1
    · exact ht (h1 ▸ hk)
    · exact ht (h1 ▸ hk)
    · simp at h1
  refine ⟨_, decode_mkFrame mt [(t, v1), (t, v2)] hmts hmtu ?_
    (hne 8 (by simp)) (hne 9 (by simp)) (hne 35 (by simp)) hlen, ?_⟩
  · intro p hp
    rcases List.mem_cons.mp hp with h1 | h1
    · exact h1 ▸ ⟨ht32, hv1s, hv1u⟩
    · rcases List.mem_cons.mp h1 with h2 | h2
      · exact h2 ▸ ⟨ht32, hv2s, hv2u⟩
      · exact absurd h2 (by simp)
  · show getField t (mapOfFields [(t, v1), (t, v2)]) = some v2
    rw [show mapOfFields [(t, v1), (t, v2)] = [(t, v2)] by simp [mapOfFields, insertField]]
    exact getField_cons_self ..

/-- C5 witness: the amended theorem at tag 112 duplicated with values
"a" then "b"; the decoded map holds "b". -/
theorem c5_witness :
    ∃ m', decode (mkFrame ((35, [48]) :: [(112, [97]), (112, [98])])) = .ok m'
      ∧ getField 112 m'.fields = some [98] :=
  c5_duplicate_tag_last_wins 112 [97] [98] [48] (by decide) (by decide) (by decide)
    (by decide) (by decide) (by decide) (by decide) (by decide) (by decide)

/-- C5 counterexample: a concrete frame in which tag 112 occurs in two
fields (`112=a` and `112=b`).  `decode` does not return any error: it
succeeds, keeping the second value — refuting both halves of the claim. -/
theorem c5_counterexample :
    decode c5Input
      = .ok { begin_string := ascii "FIX.4.4", body_length := 17,
              msg_type := .heartbeat, fields := [(112, [98])] } := by
  decide

/-! ## Claim C9 -/

/-- C9: whenever `try_extract_one` returns no frame — no `8=`, no
following `9=`, no SOH after the `9=`, an unparsable length, or a buffer
shorter than the computed frame — the buffer is returned unchanged; bytes
are consumed only together with a returned frame. -/
theorem c9_none_buffer_unchanged (buffer : List Nat)
    (h : (try_extract_one buffer).1 = none) :
    (try_extract_one buffer).2 = buffer := by
  rw [try_extract_one] at h ⊢
  cases h1 : findSub [56, 61] buffer with
  | none => simp [h1]
  | some start =>
    simp only [h1] at h ⊢
    cases h2 : findSub [57, 61] (buffer.drop start) with
    | none => simp
    | some rel =>
      simp only [h2] at h ⊢
      cases h3 : memchr SOH (buffer.drop (rel + start)) with
      | none => simp
      | some i =>
        simp only [h3] at h ⊢
        by_cases h4 : utf8Valid ((buffer.take (i + (rel + start))).drop (rel + start + 2)) = true
        · simp only [h4, if_true] at h ⊢
          cases h5 : parseUsize ((buffer.take (i + (rel + start))).drop (rel + start + 2)) with
          | none => simp [h5]
          | some body_len =>
            simp only [h5] at h ⊢
            by_cases h6 : start + (i + (rel + start) + 1 + body_len + 7 - start) > buffer.length
            · simp [h6]
            · simp only [if_neg h6] at h
              simp at h
        · simp only [h4, if_false] at h ⊢
          simp

/-- C9 witness: a buffer holding no `8=` is left unchanged. -/
theorem c9_witness :
    (try_extract_one [48, 61, 50]).1 = none
    ∧ (try_extract_one [48, 61, 50]).2 = [48, 61, 50] :=
  ⟨by decide, c9_none_buffer_unchanged [48, 61, 50] (by decide)⟩

/-- C6 counterexample: the initiator session task emits exactly
`c6LogonBytes`, and the claimed contiguous byte sequence (with 49/56
before 34) does not occur in it: `encode` sorts body fields in ascending
tag order, so 34 precedes 49 and 56. -/
theorem c6_counterexample :
    (sessionStart c6Cfg 0).writes = [c6LogonBytes]
    ∧ ¬ c6ClaimedRun <:+: c6LogonBytes := by
  constructor
  · decide
  · decide

/-- C6 (amended): the Logon frame of an initiator configured with
sender "I", target "A", heartbeat 1 contains the contiguous run
`35=A⟨SOH⟩34=1⟨SOH⟩49=I⟨SOH⟩56=A⟨SOH⟩108=1⟨SOH⟩` (ascending tag order
after `35=`), and the emitted bytes pass `decode`. -/
theorem c6_logon_frame :
    (sessionStart c6Cfg 0).writes = [c6LogonBytes]
    ∧ c6ActualRun <:+: c6LogonBytes
    ∧ (decode c6LogonBytes).isOk = true := by
  refine ⟨by decide, ?_, by decide⟩
  decide

set_option maxRecDepth 100000 in
/-- C10: `file_stem` is not injective — the distinct keys ("A.B","T") and
("A_B","T") share the stem "A_B__T", so records of both sessions land in
the same journal and index files, and both `load_outbound_range` and
`last_outbound_seq` merge the two sessions' messages. -/
theorem c10_file_stem_not_injective :
    c10KeyDot ≠ c10KeyUnd
    ∧ file_stem c10KeyDot = file_stem c10KeyUnd
    ∧ load_outbound_range c10Fs c10KeyDot 1 2 = .ok [[80, 49], [80, 50]]
    ∧ load_outbound_range c10Fs c10KeyUnd 1 2 = .ok [[80, 49], [80, 50]]
    ∧ last_outbound_seq c10Fs c10KeyDot = .ok (some 2) := by
  refine ⟨by decide, by decide, by decide, by decide, by decide⟩

/-! ## Claim C2 -/

/-- C2 (amended): the initiator session performs no gap detection.  When
an inbound message of a type that solicits no reply (Heartbeat, Logon,
SequenceReset or an unknown type) arrives carrying MsgSeqNum k+g while
in_seq = k, the session writes nothing — in particular no ResendRequest —
and simply records in_seq = k+g. -/
theorem c2_no_gap_detection (cfg : InitiatorConfig) (now : Nat) (st : SessState)
    (frame : List Nat) (msg : FixMessage) (s : List Nat) (k g : Nat)
    (hdec : decode frame = .ok msg)
    (hmt : msg.msg_type = .heartbeat ∨ msg.msg_type = .logon
      ∨ msg.msg_type = .sequenceReset ∨ (∃ u, msg.msg_type = .unknown u))
    (h34 : getField 34 msg.fields = some s) (hp : parseU32 s = some (k + g))
    (hin : st.in_seq = k) (hg : 2 ≤ g) :
    (sessionInbound cfg now st frame).writes = []
    ∧ (sessionInbound cfg now st frame).state.in_seq = k + g := by
  have hp34 : parse34 msg = some (k + g) := by
    rw [parse34, h34]
    exact hp
  rcases hmt with h | h | h | ⟨u, h⟩
  · refine ⟨by simp [sessionInbound, hdec, hp34, h], ?_⟩
    simp only [sessionInbound, hdec, hp34, h]
    cases getField 112 msg.fields with
    | none => rfl
    | some id => split <;> (first | rfl | (split <;> rfl))
  · simp [sessionInbound, hdec, hp34, h]
  · simp [sessionInbound, hdec, hp34, h]
  · simp [sessionInbound, hdec, hp34, h]

/-- C2 counterexample: with in_seq = 5 (k = 5), an inbound Heartbeat with
MsgSeqNum 7 (g = 2) arrives.  The claim requires the next outbound message
to be a ResendRequest with 7=6, 16=6; the session instead writes nothing
in response, sets in_seq = 7, and its next outbound write (on the
following heartbeat tick) is a Heartbeat, not a ResendRequest. -/
theorem c2_counterexample :
    (sessionInbound c2Cfg 1000 c2State c2GapFrame).writes = []
    ∧ (sessionInbound c2Cfg 1000 c2State c2GapFrame).state.in_seq = 7
    ∧ (sessionRun c2Cfg c2State [(1000, .inbound c2GapFrame), (31000, .tick)]).map
        (fun w => (decode w).map (·.msg_type))
      = [.ok .heartbeat] := by
  refine ⟨by decide, by decide, by decide⟩

/-- C2 witness: the amended theorem applied to the concrete gap scenario
(k = 5, g = 2, inbound Heartbeat with 34=7). -/
theorem c2_witness :
    (sessionInbound c2Cfg 1000 c2State c2GapFrame).writes = []
    ∧ (sessionInbound c2Cfg 1000 c2State c2GapFrame).state.in_seq = 5 + 2 :=
  c2_no_gap_detection c2Cfg 1000 c2State c2GapFrame c2WitnessMsg [55] 5 2
    (by decide) (Or.inl (by decide)) (by decide) (by decide) (by decide) (by decide)

/-! ## Claim C3 -/

/-- C3 (amended): the SequenceReset arm of the session loop is a no-op:
tags 123 (GapFillFlag) and 36 (NewSeqNo) are ignored entirely.  As for
any inbound message, in_seq is set to the frame's own MsgSeqNum (tag 34)
when it parses; it is never set to NewSeqNo − 1. -/
theorem c3_sequence_reset_ignores_new_seq_no (cfg : InitiatorConfig) (now : Nat)
    (st : SessState) (frame : List Nat) (msg : FixMessage) (s : List Nat) (n : Nat)
    (hdec : decode frame = .ok msg)
    (hmt : msg.msg_type = .sequenceReset)
    (h34 : getField 34 msg.fields = some s) (hp : parseU32 s = some n) :
    (sessionInbound cfg now st frame).writes = []
    ∧ (sessionInbound cfg now st frame).state.in_seq = n := by
  have hp34 : parse34 msg = some n := by
    rw [parse34, h34]
    exact hp
  simp [sessionInbound, hdec, hp34, hmt]

/-- C3 counterexample: with in_seq = 10, an inbound SequenceReset
carrying 123=Y, 36=15 (NewSeqNo 15 > 10) and 34=11 arrives.  The claim
requires in_seq to become NewSeqNo − 1 = 14; the session instead sets
in_seq to the frame's MsgSeqNum, 11. -/
theorem c3_counterexample :
    (sessionInbound c2Cfg 1000 c3State c3Frame).state.in_seq = 11
    ∧ (sessionInbound c2Cfg 1000 c3State c3Frame).state.in_seq ≠ 14 := by
  refine ⟨by decide, by decide⟩

/-- C3 witness: the amended theorem applied to the concrete SequenceReset
frame with 34=11, 123=Y, 36=15. -/
theorem c3_witness :
    (sessionInbound c2Cfg 1000 c3State c3Frame).writes = []
    ∧ (sessionInbound c2Cfg 1000 c3State c3Frame).state.in_seq = 11 :=
  c3_sequence_reset_ignores_new_seq_no c2Cfg 1000 c3State c3Frame c3WitnessMsg
    [49, 49] 11 (by decide) (by decide) (by decide) (by decide)

/-! ## Claim C7 -/

theorem findSub_at_head (pat hay : List Nat) (h : pat.isPrefixOf hay = true) :
    findSub pat hay = some 0 := by
  cases hay with
  | nil => simp [findSub, h]
  | cons b t => simp [findSub, h]

theorem findSub_cons_ne (p0 : Nat) (pt : List Nat) (b : Nat) (t : List Nat)
    (h : ¬ b = p0) :
    findSub (p0 :: pt) (b :: t) = (findSub (p0 :: pt) t).map (· + 1) := by
  have hp : (p0 :: pt).isPrefixOf (b :: t) = false := by
    simp [List.isPrefixOf]
    intro hc
    exact absurd hc.symm h
  simp [findSub, hp]

theorem findSub_append_miss (p0 : Nat) (pt : List Nat) (pre : List Nat) (t : List Nat)
    (hpre : ∀ b ∈ pre, ¬ b = p0) :
    findSub (p0 :: pt) (pre ++ t) = (findSub (p0 :: pt) t).map (· + pre.length) := by
  induction pre with
  | nil =>
    simp only [List.nil_append, List.length_nil]
    cases h : findSub (p0 :: pt) t with
    | none => simp
    | some v => simp
  | cons b pre ih =>
    rw [List.cons_append, findSub_cons_ne p0 pt b _ (hpre b (by simp)),
      ih (fun c hc => hpre c (by simp [hc]))]
    cases h : findSub (p0 :: pt) t with
    | none => rfl
    | some v =>
      show some (v + pre.length + 1) = some (v + (b :: pre).length)
      rw [List.length_cons, ← Nat.add_assoc]

theorem memchr_append (x : Nat) (pre t : List Nat) (hpre : ∀ b ∈ pre, ¬ b = x) :
    memchr x (pre ++ x :: t) = some pre.length := by
  induction pre with
  | nil => simp [memchr]
  | cons b pre ih =>
    rw [List.cons_append, memchr, if_neg (hpre b (by simp)),
      ih (fun c hc => hpre c (by simp [hc]))]
    simp

theorem length_render_flatten (bodyFs : FieldMap) :
    ((bodyFs.map (fun p => renderField p ++ [SOH])).flatten).length = bodyLenOf bodyFs := by
  induction bodyFs with
  | nil => rfl
  | cons p rest ih =>
    simp only [List.map_cons, List.flatten_cons, List.length_append, ih, bodyLenOf,
      List.map_cons, List.sum_cons]
    have h := length_renderField p
    simp only [List.length_append, List.length_cons, List.length_nil] at h ⊢
    omega

/-- One successful extraction: a valid frame at the head of the buffer is
returned whole and exactly consumed. -/
theorem try_extract_one_frame (bodyFs : FieldMap) (rest : List Nat)
    (hlen : bodyLenOf bodyFs < 2 ^ 64) :
    try_extract_one (mkFrame bodyFs ++ rest) = (some (mkFrame bodyFs), rest) := by
  obtain ⟨L, hL⟩ : ∃ L, bodyLenOf bodyFs = L := ⟨_, rfl⟩
  obtain ⟨D, hD⟩ : ∃ D, natToBytes L = D := ⟨_, rfl⟩
  obtain ⟨B, hB⟩ : ∃ B, (bodyFs.map (fun p => renderField p ++ [SOH])).flatten = B := ⟨_, rfl⟩
  obtain ⟨P3, hP3⟩ : ∃ P, pad3 (compute_checksum (framePrefix bodyFs)) = P := ⟨_, rfl⟩
  have hDd : ∀ b ∈ D, 48 ≤ b ∧ b ≤ 57 := by
    rw [← hD]
    exact natToBytes_digits L
  have hBl : B.length = L := by
    rw [← hB, ← hL]
    exact length_render_flatten bodyFs
  have hP3l : P3.length = 3 := by
    rw [← hP3]
    exact pad3_length _ (lt_trans (Nat.mod_lt _ (by omega)) (by omega))
  have hshape : mkFrame bodyFs
      = [56, 61, 70, 73, 88, 46, 52, 46, 52, 1, 57, 61]
        ++ (D ++ (1 :: (B ++ ([49, 48, 61] ++ (P3 ++ [1]))))) := by
    rw [← hD, ← hB, ← hP3, ← hL]
    simp [mkFrame, framePrefix, beginStringField, SOH]
  have hlen_frame : (mkFrame bodyFs).length = 20 + D.length + L := by
    rw [hshape]
    simp only [List.length_append, List.length_cons, List.length_nil, hBl, hP3l]
    omega
  have hdata : mkFrame bodyFs ++ rest
      = [56, 61, 70, 73, 88, 46, 52, 46, 52, 1]
        ++ ((57 :: 61 :: D) ++ (1 :: (B ++ ([49, 48, 61] ++ (P3 ++ (1 :: rest)))))) := by
    rw [hshape]
    simp
  have h8 : findSub [56, 61] (mkFrame bodyFs ++ rest) = some 0 := by
    refine findSub_at_head _ _ ?_
    rw [hshape]
    simp [List.isPrefixOf]
  have h9 : findSub [57, 61] (mkFrame bodyFs ++ rest) = some 10 := by
    rw [hdata, findSub_append_miss 57 [61] _ _ (by decide)]
    rw [findSub_at_head _ _ ?_]
    · rfl
    · show ([57, 61] : List Nat).isPrefixOf (57 :: 61 :: (D ++ _)) = true
      simp [List.isPrefixOf]
  have hmem : memchr SOH ((mkFrame bodyFs ++ rest).drop 10) = some (D.length + 2) := by
    have hdrop : (mkFrame bodyFs ++ rest).drop 10
        = (57 :: 61 :: D) ++ (1 :: (B ++ ([49, 48, 61] ++ (P3 ++ (1 :: rest))))) := by
      rw [hdata]
      rw [show (10 : Nat) = ([56, 61, 70, 73, 88, 46, 52, 46, 52, 1] : List Nat).length
        from rfl]
      exact List.drop_left _ _
    rw [hdrop, show SOH = 1 from rfl, memchr_append 1 _ _ ?_]
    · simp
    · intro b hb
      rcases List.mem_cons.mp hb with h1 | h1
      · omega
      · rcases List.mem_cons.mp h1 with h2 | h2
        · omega
        · have := hDd b h2
          omega
  have htk : ((mkFrame bodyFs ++ rest).take (D.length + 2 + 10)).drop 12 = D := by
    rw [hdata]
    rw [show [56, 61, 70, 73, 88, 46, 52, 46, 52, 1]
          ++ ((57 :: 61 :: D) ++ (1 :: (B ++ ([49, 48, 61] ++ (P3 ++ (1 :: rest))))))
        = ([56, 61, 70, 73, 88, 46, 52, 46, 52, 1, 57, 61] ++ D)
          ++ (1 :: (B ++ ([49, 48, 61] ++ (P3 ++ (1 :: rest))))) by simp]
    rw [List.take_append_eq_append_take]
    have e2 : ([56, 61, 70, 73, 88, 46, 52, 46, 52, 1, 57, 61] ++ D).take (D.length + 2 + 10)
        = [56, 61, 70, 73, 88, 46, 52, 46, 52, 1, 57, 61] ++ D := by
      refine List.take_of_length_le ?_
      simp only [List.length_append, List.length_cons, List.length_nil]
      omega
    have e3 : D.length + 2 + 10
        - ([56, 61, 70, 73, 88, 46, 52, 46, 52, 1, 57, 61] ++ D).length = 0 := by
      simp only [List.length_append, List.length_cons, List.length_nil]
      omega
    rw [e2, e3, List.take_zero, List.append_nil]
    have e4 : (12 : Nat)
        = ([56, 61, 70, 73, 88, 46, 52, 46, 52, 1, 57, 61] : List Nat).length := rfl
    rw [e4]
    exact List.drop_left _ _
  have huD : utf8Valid D = true := by
    apply utf8Valid_of_ascii
    simp only [allAscii, List.all_eq_true, decide_eq_true_eq]
    intro b hb
    have := hDd b hb
    omega
  have hpD : parseUsize D = some L := by
    rw [← hD]
    exact parseNatBounded_natToBytes _ _ (hL ▸ hlen)
  have hsz : D.length + 2 + 10 + 1 + L + 7 - 0 = (mkFrame bodyFs).length := by
    rw [hlen_frame]
    omega
  have htotal : (mkFrame bodyFs ++ rest).drop (D.length + 2 + 10 + 1 + L + 7 - 0)
      = rest := by
    rw [hsz]
    exact List.drop_left _ _
  have hframe : (mkFrame bodyFs ++ rest).take (D.length + 2 + 10 + 1 + L + 7 - 0)
      = mkFrame bodyFs := by
    rw [hsz]
    exact List.take_left _ _
  rw [try_extract_one, h8]
  simp only [List.drop_zero]
  rw [h9]
  simp only [Nat.add_zero]
  rw [hmem]
  simp only [Nat.zero_add]
  rw [htk]
  rw [huD]
  simp only [if_true]
  rw [hpD]
  simp only
  rw [if_neg ?hov]
  case hov =>
    push_neg
    rw [List.length_append, hlen_frame]
    omega
  rw [hframe, htotal]

theorem mkFrame_length_pos (bodyFs : FieldMap) : 1 ≤ (mkFrame bodyFs).length := by
  simp [mkFrame]
  omega

theorem try_extract_one_nil : try_extract_one [] = (none, []) := by
  rfl

theorem extractAllFuel_flatten (frames : List (List Nat)) (fuel : Nat)
    (hv : ∀ f ∈ frames, IsValidFrame f) (hfuel : frames.length ≤ fuel) :
    extractAllFuel fuel frames.flatten = (frames, []) := by
  induction frames generalizing fuel with
  | nil =>
    cases fuel with
    | zero => rfl
    | succ n => simp [extractAllFuel, try_extract_one_nil]
  | cons f frames ih =>
    obtain ⟨bodyFs, hf, hlen⟩ := hv f (by simp)
    cases fuel with
    | zero => simp at hfuel
    | succ n =>
      have h1 : try_extract_one (f ++ frames.flatten) = (some f, frames.flatten) := by
        rw [hf]
        exact try_extract_one_frame bodyFs _ hlen
      have h2 : extractAllFuel n frames.flatten = (frames, []) := by
        refine ih n (fun g hg => hv g (List.mem_cons_of_mem _ hg)) ?_
        simp only [List.length_cons] at hfuel
        omega
      show extractAllFuel (n + 1) ((f :: frames).flatten) = (f :: frames, [])
      rw [List.flatten_cons]
      simp [extractAllFuel, h1, h2]

theorem flatten_length_ge (frames : List (List Nat))
    (h : ∀ f ∈ frames, 1 ≤ f.length) :
    frames.length ≤ frames.flatten.length := by
  induction frames with
  | nil => simp
  | cons f fs ih =>
    simp only [List.flatten_cons, List.length_append, List.length_cons]
    have h1 := h f (by simp)
    have h2 := ih (fun g hg => h g (List.mem_cons_of_mem _ hg))
    omega

/-- **C7.** For every finite list of valid FIX frames, calling
`try_extract_one` repeatedly on a buffer holding their concatenation
returns exactly those frames, byte-identical and in order, and leaves the
buffer empty. -/
theorem c7_extract_concat (frames : List (List Nat))
    (hv : ∀ f ∈ frames, IsValidFrame f) :
    extractAll frames.flatten = (frames, []) := by
  refine extractAllFuel_flatten frames _ hv ?_
  refine flatten_length_ge frames ?_
  intro f hf
  obtain ⟨bodyFs, hf2, _⟩ := hv f hf
  rw [hf2]
  exact mkFrame_length_pos bodyFs

/-- Witness for C7 at two concrete frames (a Heartbeat body and a
two-field body). -/
theorem c7_witness :
    extractAll ([mkFrame [(35, [48])], mkFrame [(35, [49]), (34, [50])]]).flatten
      = ([mkFrame [(35, [48])], mkFrame [(35, [49]), (34, [50])]], []) := by
  refine c7_extract_concat [mkFrame [(35, [48])], mkFrame [(35, [49]), (34, [50])]] ?_
  intro f hf
  rcases List.mem_cons.mp hf with h1 | h1
  · exact ⟨[(35, [48])], h1, by decide⟩
  · rcases List.mem_cons.mp h1 with h2 | h2
    · exact ⟨[(35, [49]), (34, [50])], h2, by decide⟩
    · simp at h2

/-! ## Claim C4 -/

theorem rangeEntries_append_inbound (l : List StoredEntry) (s : Option Nat)
    (t : Nat) (p : List Nat) (b e : Nat) :
    rangeEntries (l ++ [⟨.inbound, s, t, p⟩]) b e = rangeEntries l b e := by
  simp [rangeEntries, List.filterMap_append]

theorem journalLoadRange_append_inbound (l : List StoredEntry) (s : Option Nat)
    (t : Nat) (p : List Nat) (b e : Nat) :
    journalLoadRange (l ++ [⟨.inbound, s, t, p⟩]) b e = journalLoadRange l b e := by
  rw [journalLoadRange, rangeEntries_append_inbound, journalLoadRange]

/-- **C4 (amended).** In an Active session, a ResendRequest with
BeginSeqNo `b` (tag 7) and EndSeqNo `e` (tag 16) makes the session write
exactly the stored outbound messages with sequence numbers in `[b, e]`, in
ascending sequence order, each re-encoded with `43=Y` and `122=<now
millis>` and otherwise identical in fields to the original; no
SequenceReset-GapFill (`123=Y`, `36=...`) is ever emitted for gaps in the
stored range. -/
theorem c4_resend_no_gapfill (cfg : InitiatorConfig) (now : Nat) (st : SessState)
    (frame : List Nat) (msg : FixMessage) (s7 s16 : List Nat) (b e : Nat)
    (hdec : decode frame = .ok msg)
    (hmt : msg.msg_type = .resendRequest)
    (h7 : getField 7 msg.fields = some s7) (hb : parseU32 s7 = some b)
    (h16 : getField 16 msg.fields = some s16) (he : parseU32 s16 = some e) :
    (sessionInbound cfg now st frame).writes
        = (journalLoadRange st.store b e).map (resendFrame now)
    ∧ (sessionInbound cfg now st frame).disconnected = false
    ∧ ∀ p ∈ journalLoadRange st.store b e, ∀ m0 : FixMessage, decode p = .ok m0 →
        WellFormed (set_field (set_field m0 43 [89]) 122 (natToBytes now)) →
        MsgTypeCodeFaithful m0.msg_type →
        ∃ m', decode (resendFrame now p) = .ok m'
          ∧ m'.msg_type = m0.msg_type
          ∧ m'.fields.Perm
              (insertField 122 (natToBytes now) (insertField 43 [89] m0.fields)) := by
  refine ⟨?_, ?_, ?_⟩
  · cases hp34 : parse34 msg with
    | none =>
      simp [sessionInbound, hdec, hmt, h7, h16, hb, he, hp34,
        journalLoadRange_append_inbound]
    | some v =>
      simp [sessionInbound, hdec, hmt, h7, h16, hb, he, hp34,
        journalLoadRange_append_inbound]
  · cases hp34 : parse34 msg with
    | none => simp [sessionInbound, hdec, hmt, hp34]
    | some v => simp [sessionInbound, hdec, hmt, hp34]
  · intro p hp m0 hm0 hwf hfaith
    have hres : resendFrame now p
        = encode (set_field (set_field m0 43 [89]) 122 (natToBytes now)) := by
      rw [resendFrame, hm0]
    rw [hres]
    exact roundtrip_encode_decode _ hwf hfaith

/-- C4 counterexample: the store holds outbound messages with sequence
numbers 2 and 4 only (a gap at 3).  A ResendRequest with 7=2, 16=4 makes
the session emit exactly two frames, both Heartbeats stamped `43=Y`, and
no frame carrying tag 123 — the SequenceReset-GapFill the claim requires
for the gap is never sent. -/
theorem c4_counterexample :
    (rangeEntries c4State.store 2 4).map Prod.fst = [2, 4]
    ∧ ((sessionInbound c2Cfg 1000 c4State c4RRFrame).writes.map
        (fun w => (decode w).map
          (fun m => (m.msg_type, getField 43 m.fields, getField 123 m.fields))))
      = [.ok (.heartbeat, some [89], none), .ok (.heartbeat, some [89], none)] := by
  refine ⟨by decide, by decide⟩

/-- C4 witness: the amended theorem applied to the concrete store
holding outbound sequence numbers 2 and 4 and the concrete ResendRequest
7=2, 16=4. -/
theorem c4_witness :
    (sessionInbound c2Cfg 1000 c4State c4RRFrame).writes
        = (journalLoadRange c4State.store 2 4).map (resendFrame 1000)
    ∧ (sessionInbound c2Cfg 1000 c4State c4RRFrame).disconnected = false
    ∧ ∀ p ∈ journalLoadRange c4State.store 2 4, ∀ m0 : FixMessage, decode p = .ok m0 →
        WellFormed (set_field (set_field m0 43 [89]) 122 (natToBytes 1000)) →
        MsgTypeCodeFaithful m0.msg_type →
        ∃ m', decode (resendFrame 1000 p) = .ok m'
          ∧ m'.msg_type = m0.msg_type
          ∧ m'.fields.Perm
              (insertField 122 (natToBytes 1000) (insertField 43 [89] m0.fields)) :=
  c4_resend_no_gapfill c2Cfg 1000 c4State c4RRFrame c4DecodedMsg [50] [52] 2 4
    (by decide) (by decide) (by decide) (by decide) (by decide) (by decide)

/-! ## Claim C8 -/

theorem scanJsonStr_close (r : List Nat) : scanJsonStr (34 :: r) = some ([], r) := by
  rfl

theorem scanJsonStr_escape (s : List Nat) (r : List Nat) :
    scanJsonStr (jsonEscape s ++ 34 :: r) = some (s, r) := by
  induction s with
  | nil => rfl
  | cons b t ih =>
    have hesc : jsonEscape (b :: t) = escByte b ++ jsonEscape t := by
      simp [jsonEscape]
    rw [hesc, List.append_assoc]
    rw [escByte]
    split_ifs with h1 h2 h3 h4 h5 h6 h7 h8
    · subst h1
      simp [scanJsonStr, ih, unescByte]
    · subst h2
      simp [scanJsonStr, ih, unescByte]
    · subst h3
      simp [scanJsonStr, ih, unescByte]
    · subst h4
      simp [scanJsonStr, ih, unescByte]
    · subst h5
      simp [scanJsonStr, ih, unescByte]
    · subst h6
      simp [scanJsonStr, ih, unescByte]
    · subst h7
      simp [scanJsonStr, ih, unescByte]
    · -- b < 32, \u00XX escape
      simp only [List.cons_append, List.nil_append]
      rw [scanJsonStr]
      have hv1 : hexVal 48 = some 0 := by decide
      have hv2 : hexVal (hexDigitLower (b / 16)) = some (b / 16) := by
        have : b / 16 < 2 := by omega
        interval_cases h : b / 16 <;> simp [hexDigitLower, hexVal]
      have hv3 : hexVal (hexDigitLower (b % 16)) = some (b % 16) := by
        have : b % 16 < 16 := by omega
        interval_cases h : b % 16 <;> simp [hexDigitLower, hexVal]
      rw [hv1, hv2, hv3, ih]
      simp
      omega
    · -- raw byte: b ≥ 32, b ≠ 34, b ≠ 92
      simp only [List.cons_append, List.nil_append]
      rw [scanJsonStr.eq_def]
      split
      · rename_i heq
        simp at heq
      · rename_i heq
        rw [List.cons.injEq] at heq
        exact absurd heq.1 h1
      · rename_i heq
        rw [List.cons.injEq] at heq
        exact absurd heq.1 h2
      · rename_i heq
        rw [List.cons.injEq] at heq
        exact absurd heq.1 h2
      · rename_i b' rest heq
        rw [List.cons.injEq] at heq
        rw [← heq.1, ← heq.2, if_neg h2, ih]

theorem expectBytes_append (pat s : List Nat) : expectBytes pat (pat ++ s) = some s := by
  rw [expectBytes, if_pos, List.drop_left]
  rw [List.isPrefixOf_iff_prefix]
  exact List.prefix_append _ _

theorem parseDirection_directionStr (d : Direction) :
    parseDirection (directionStr d) = some d := by
  cases d <;> rfl

theorem takeWhile_append_eq (p : Nat → Bool) (l r : List Nat)
    (hl : ∀ b ∈ l, p b = true) (hr : ∀ c ∈ r.take 1, p c = false) :
    (l ++ r).takeWhile p = l := by
  induction l with
  | nil =>
    cases r with
    | nil => rfl
    | cons c t => simp [hr c (by simp)]
  | cons b t ih =>
    simp [hl b (by simp)]
    exact ih (fun c hc => hl c (by simp [hc]))

theorem natToBytes_head_digit (n : Nat) :
    ∃ d t, natToBytes n = d :: t ∧ 48 ≤ d ∧ d ≤ 57 := by
  cases h : natToBytes n with
  | nil => exact absurd h (natToBytes_ne_nil n)
  | cons d t =>
    have := natToBytes_digits n d (by rw [h]; simp)
    exact ⟨d, t, rfl, this.1, this.2⟩

theorem scanNat_natToBytes (bound n : Nat) (r : List Nat) (hn : n < bound)
    (hr : ∀ c ∈ r.take 1, isDigitByte c = false) :
    scanNat bound (natToBytes n ++ r) = some (n, r) := by
  have hds : (natToBytes n ++ r).takeWhile isDigitByte = natToBytes n := by
    refine takeWhile_append_eq _ _ _ ?_ hr
    intro b hb
    have := natToBytes_digits n b hb
    simp [isDigitByte]
    omega
  rw [scanNat]
  simp only [hds, digitsVal_natToBytes]
  rw [if_pos ⟨natToBytes_ne_nil n, hn⟩, List.drop_left]

theorem scanSeq_natToBytes (n : Nat) (r : List Nat) (hn : n < 2 ^ 32)
    (hr : ∀ c ∈ r.take 1, isDigitByte c = false) :
    scanSeq (natToBytes n ++ r) = some (some n, r) := by
  obtain ⟨d, t, hdt, hd1, hd2⟩ := natToBytes_head_digit n
  have hnull : expectBytes (ascii "null") (natToBytes n ++ r) = none := by
    rw [expectBytes, if_neg]
    rw [hdt]
    show ¬ (110 :: _).isPrefixOf (d :: _) = true
    simp [List.isPrefixOf]
    intro hc
    omega
  rw [scanSeq, hnull, scanNat_natToBytes _ _ _ hn hr]

theorem b64Val_b64Char (n : Nat) (h : n < 64) : b64Val (b64Char n) = some n := by
  rw [b64Char, b64Val]
  split_ifs <;> first | (congr 1; omega) | omega | rfl

theorem b64Char_ne_61 (n : Nat) : b64Char n ≠ 61 := by
  rw [b64Char]
  split_ifs <;> omega

theorem base64_roundtrip : ∀ p : List Nat, (∀ b ∈ p, b < 256) →
    base64Decode (base64Encode p) = some p
  | [], _ => rfl
  | [a], h => by
    have ha : a < 256 := h a (by simp)
    rw [base64Encode, base64Decode,
      b64Val_b64Char (a / 4) (by omega), b64Val_b64Char (a % 4 * 16) (by omega)]
    simp [Nat.mul_mod_left]
    omega
  | [a, b], h => by
    have ha : a < 256 := h a (by simp)
    have hb : b < 256 := h b (by simp)
    rw [base64Encode, base64Decode,
      b64Val_b64Char (a / 4) (by omega), b64Val_b64Char (a % 4 * 16 + b / 16) (by omega),
      b64Val_b64Char (b % 16 * 4) (by omega)]
    simp [Nat.mul_mod_left, b64Char_ne_61]
    · omega
    · exact b64Char_ne_61 _
  | a :: b :: c :: rest, h => by
    have ha : a < 256 := h a (by simp)
    have hb : b < 256 := h b (by simp)
    have hc : c < 256 := h c (by simp)
    have ih := base64_roundtrip rest (fun x hx => h x (by simp [hx]))
    rw [base64Encode, base64Decode.eq_def]
    split
    · rename_i heq
      simp at heq
    · rename_i c1 c2 heq
      simp only [List.cons.injEq] at heq
      exact absurd heq.2.2.1 (b64Char_ne_61 _)
    · rename_i c1 c2 c3 heq
      simp only [List.cons.injEq] at heq
      exact absurd heq.2.2.2.1 (b64Char_ne_61 _)
    · rename_i c1 c2 c3 c4 rest' heq
      simp only [List.cons.injEq] at heq
      obtain ⟨h1, h2, h3, h4, h5⟩ := heq
      rw [← h1, ← h2, ← h3, ← h4, ← h5,
        b64Val_b64Char (a / 4) (by omega),
        b64Val_b64Char (a % 4 * 16 + b / 16) (by omega),
        b64Val_b64Char (b % 16 * 4 + c / 64) (by omega),
        b64Val_b64Char (c % 64) (by omega), ih]
      simp
      omega
    · rename_i hno
      exact absurd rfl (hno (b64Char (a / 4)) (b64Char (a % 4 * 16 + b / 16))
        (b64Char (b % 16 * 4 + c / 64)) (b64Char (c % 64)) (base64Encode rest))

theorem recordJson_shape (k : SessionKey) (d : Direction) (sq : Option Nat)
    (ts : Nat) (p64 : List Nat) :
    recordJson ⟨k, d, sq, ts, p64⟩ ++ [10]
      = ascii "\x7b\"session\":\x7b\"sender_comp_id\":\"" ++ (jsonEscape k.sender_comp_id ++ (34 :: (ascii ",\"target_comp_id\":\"" ++ (jsonEscape k.target_comp_id ++ (34 :: (ascii "\x7d,\"direction\":\"" ++ (jsonEscape (directionStr d) ++ (34 :: (ascii ",\"seq\":" ++ (seqJson sq ++ (ascii ",\"ts_millis\":" ++ (natToBytes ts ++ (ascii ",\"payload_b64\":\"" ++ (jsonEscape p64 ++ (34 :: (ascii "\x7d" ++ ([10]))))))))))))))))) := by
  rw [show ascii "\x7b\"session\":\x7b\"sender_comp_id\":\""
      = ascii "\x7b\"session\":\x7b\"sender_comp_id\":" ++ [34] by decide]
  rw [show ascii ",\"target_comp_id\":\"" = ascii ",\"target_comp_id\":" ++ [34] by decide]
  rw [show ascii "\x7d,\"direction\":\"" = ascii "\x7d,\"direction\":" ++ [34] by decide]
  rw [show ascii ",\"payload_b64\":\"" = ascii ",\"payload_b64\":" ++ [34] by decide]
  simp only [recordJson, quoteStr, List.append_assoc, List.cons_append, List.nil_append]

set_option maxHeartbeats 2000000 in
theorem parseRecordLine_roundtrip (k : SessionKey) (d : Direction) (sq ts : Nat)
    (p64 : List Nat) (hsq : sq < 2 ^ 32) (hts : ts < 2 ^ 64) :
    parseRecordLine (recordJson ⟨k, d, some sq, ts, p64⟩ ++ [10])
      = some ⟨k, d, some sq, ts, p64⟩ := by
  have hseq : scanSeq (natToBytes sq ++ (ascii ",\"ts_millis\":" ++ (natToBytes ts ++ (ascii ",\"payload_b64\":\"" ++ (jsonEscape p64 ++ (34 :: (ascii "\x7d" ++ ([10]))))))))
      = some (some sq, ascii ",\"ts_millis\":" ++ (natToBytes ts ++ (ascii ",\"payload_b64\":\"" ++ (jsonEscape p64 ++ (34 :: (ascii "\x7d" ++ ([10]))))))) := by
    refine scanSeq_natToBytes sq _ hsq ?_
    intro c hc
    have hc2 : c ∈ ([44] : List Nat) := hc
    simp at hc2
    subst hc2
    decide
  have hts2 : scanNat (2 ^ 64) (natToBytes ts ++ (ascii ",\"payload_b64\":\"" ++ (jsonEscape p64 ++ (34 :: (ascii "\x7d" ++ ([10]))))))
      = some (ts, ascii ",\"payload_b64\":\"" ++ (jsonEscape p64 ++ (34 :: (ascii "\x7d" ++ ([10]))))) := by
    refine scanNat_natToBytes _ _ _ hts ?_
    intro c hc
    have hc2 : c ∈ ([44] : List Nat) := hc
    simp at hc2
    subst hc2
    decide
  rw [recordJson_shape, parseRecordLine]
  rw [expectBytes_append]
  simp only [Option.bind_eq_bind, Option.some_bind]
  rw [scanJsonStr_escape]
  simp only [Option.some_bind]
  rw [expectBytes_append]
  simp only [Option.some_bind]
  rw [scanJsonStr_escape]
  simp only [Option.some_bind]
  rw [expectBytes_append]
  simp only [Option.some_bind]
  rw [scanJsonStr_escape]
  simp only [Option.some_bind]
  rw [parseDirection_directionStr]
  simp only [Option.some_bind]
  rw [expectBytes_append]
  simp only [Option.some_bind]
  rw [show seqJson (some sq) = natToBytes sq from rfl]
  rw [hseq]
  simp only [Option.some_bind]
  rw [expectBytes_append]
  simp only [Option.some_bind]
  rw [hts2]
  simp only [Option.some_bind]
  rw [expectBytes_append]
  simp only [Option.some_bind]
  rw [scanJsonStr_escape]
  simp only [Option.some_bind]
  rw [expectBytes_append]
  simp only [Option.some_bind]
  simp [isWsByte]

theorem no10_append (l1 l2 : List Nat) (h1 : ¬ 10 ∈ l1) (h2 : ¬ 10 ∈ l2) :
    ¬ 10 ∈ l1 ++ l2 :=
  fun h => (List.mem_append.mp h).elim h1 h2

theorem escByte_no10 (b : Nat) : ¬ 10 ∈ escByte b := by
  rw [escByte]
  split_ifs with h1 h2 h3 h4 h5 h6 h7 h8
  all_goals simp [hexDigitLower]
  all_goals try split_ifs <;> omega
  omega

theorem jsonEscape_no10 (s : List Nat) : ¬ 10 ∈ jsonEscape s := by
  intro h
  rw [jsonEscape] at h
  obtain ⟨x, hx, h10⟩ := List.mem_flatMap.mp h
  exact escByte_no10 x h10

theorem natToBytes_no10 (n : Nat) : ¬ 10 ∈ natToBytes n := fun h => by
  have := natToBytes_digits n 10 h
  omega

theorem seqJson_no10 (sq : Option Nat) : ¬ 10 ∈ seqJson sq := by
  cases sq with
  | none => decide
  | some n => exact natToBytes_no10 n

theorem recordJson_no10 (r : StoredMessageRecord) : ¬ 10 ∈ recordJson r := by
  rw [recordJson]
  simp only [quoteStr]
  repeat' apply no10_append
  all_goals first
    | decide
    | exact jsonEscape_no10 _
    | exact natToBytes_no10 _
    | exact seqJson_no10 _

theorem readLineAt_append (pre line suf : List Nat) (hno : ¬ 10 ∈ line) :
    readLineAt (pre ++ (line ++ 10 :: suf)) pre.length = line ++ [10] := by
  rw [readLineAt, List.drop_left]
  have ht : (line ++ 10 :: suf).takeWhile (fun b => b ≠ 10) = line := by
    refine takeWhile_append_eq _ _ _ ?_ ?_
    · intro b hb
      simp
      exact fun hc => hno (hc ▸ hb)
    · intro c hc
      simp at hc
      simp [hc]
  rw [ht, List.drop_left]
  simp

/-! ### Index and data files written by `flush_batch` -/

theorem intercalate_cons2 (x : Nat) (a b : List Nat) (t : List (List Nat)) :
    [x].intercalate (a :: b :: t) = a ++ [x] ++ [x].intercalate (b :: t) := by
  simp [List.intercalate, List.intersperse]

theorem intercalate_snoc_nil (x : Nat) (ls : List (List Nat)) (h : ls ≠ []) :
    [x].intercalate ls ++ [x] = [x].intercalate (ls ++ [[]]) := by
  induction ls with
  | nil => simp at h
  | cons a t ih =>
    cases t with
    | nil => simp [List.intercalate, List.intersperse]
    | cons b t2 =>
      rw [show ((a :: b :: t2) ++ [[]]) = a :: ((b :: t2) ++ [[]]) from rfl]
      rw [show ((b :: t2) ++ [[]]) = b :: (t2 ++ [[]]) from rfl]
      rw [intercalate_cons2, intercalate_cons2]
      rw [List.append_assoc, List.append_assoc]
      rw [show b :: (t2 ++ [[]]) = (b :: t2) ++ [[]] from rfl]
      rw [← ih (by simp)]
      simp

theorem linesOf_flatten (ls : List (List Nat))
    (h10 : ∀ l ∈ ls, ¬ 10 ∈ l) (h13 : ∀ l ∈ ls, l.getLast? ≠ some 13) :
    linesOf ((ls.map (· ++ [10])).flatten) = ls := by
  cases hls : ls with
  | nil => rfl
  | cons l0 lt =>
    rw [← hls]
    have hne : ls ≠ [] := by rw [hls]; simp
    rw [flatten_concat_sep 10 ls hne, intercalate_snoc_nil 10 ls hne]
    rw [linesOf]
    rw [List.splitOn_intercalate _ 10 ?hx ?hne2]
    case hx =>
      intro l hl
      rcases List.mem_append.mp hl with h | h
      · exact h10 l h
      · simp at h
        simp [h]
    case hne2 => simp
    simp only [List.getLast?_concat]
    rw [if_true, List.dropLast_concat]
    rw [List.map_congr_left]
    · exact List.map_id ls
    · intro l hl
      rw [if_neg (h13 l hl)]
      rfl

theorem jsonlName_ne_idxName (s : List Nat) : jsonlName s ≠ idxName s := fun h => by
  have h2 := congrArg List.length h
  rw [jsonlName, idxName, List.length_append, List.length_append,
    show (ascii ".jsonl").length = 6 from rfl, show (ascii ".idx").length = 4 from rfl] at h2
  omega

theorem flushRecord_files (key : SessionKey) (x : Nat × Nat × List Nat) (fs : Fs) :
    flushRecord fs (recOf key x) (jsonlName (file_stem key))
      = some ((fs (jsonlName (file_stem key))).getD [] ++ recordJson (recOf key x) ++ [10])
    ∧ flushRecord fs (recOf key x) (idxName (file_stem key))
      = some ((fs (idxName (file_stem key))).getD []
          ++ natToBytes x.1 ++ [32]
          ++ natToBytes ((fs (jsonlName (file_stem key))).getD []).length ++ [10]) := by
  have hne := jsonlName_ne_idxName (file_stem key)
  have hne2 := Ne.symm hne
  constructor
  · rw [flushRecord]
    simp only [recOf, append_bytes]
    simp [fsWrite, hne, hne2]
  · rw [flushRecord]
    simp only [recOf, append_bytes]
    simp [fsWrite, hne, hne2, List.append_assoc]

theorem flush_files_some (key : SessionKey) (xs : List (Nat × Nat × List Nat))
    (fs0 : Fs) (d0 i0 : List Nat)
    (hd : fs0 (jsonlName (file_stem key)) = some d0)
    (hi : fs0 (idxName (file_stem key)) = some i0) :
    flush_batch fs0 (xs.map (recOf key)) (jsonlName (file_stem key))
        = some (d0 ++ dataOf key xs)
    ∧ flush_batch fs0 (xs.map (recOf key)) (idxName (file_stem key))
        = some (i0 ++ idxOf key d0.length xs) := by
  induction xs generalizing fs0 d0 i0 with
  | nil => simp [flush_batch, dataOf, idxOf, hd, hi]
  | cons x t ih =>
    obtain ⟨hfd, hfi⟩ := flushRecord_files key x fs0
    rw [hd] at hfd hfi
    simp only [Option.getD_some] at hfd hfi
    rw [hi] at hfi
    simp only [Option.getD_some] at hfi
    have hstep : flush_batch fs0 ((x :: t).map (recOf key))
        = flush_batch (flushRecord fs0 (recOf key x)) (t.map (recOf key)) := rfl
    rw [hstep]
    obtain ⟨h1, h2⟩ := ih (flushRecord fs0 (recOf key x))
      (d0 ++ recordJson (recOf key x) ++ [10])
      (i0 ++ natToBytes x.1 ++ [32] ++ natToBytes d0.length ++ [10]) hfd hfi
    refine ⟨?_, ?_⟩
    · rw [h1]
      simp [dataOf, List.append_assoc]
    · rw [h2]
      have hlen : (d0 ++ recordJson (recOf key x) ++ [10]).length
          = d0.length + ((recordJson (recOf key x)).length + 1) := by
        simp only [List.length_append, List.length_cons, List.length_nil]
        omega
      rw [hlen, idxOf]
      simp [List.append_assoc]

theorem splitOnP_notin (p : Nat → Bool) (A rest : List Nat)
    (hA : ∀ a ∈ A, p a = false) :
    (A ++ rest).splitOnP p = (rest.splitOnP p).modifyHead (A ++ ·) := by
  induction A with
  | nil =>
    cases h : rest.splitOnP p with
    | nil => simp [h]
    | cons hH hT => simp [h]
  | cons a A2 ih =>
    rw [List.cons_append, List.splitOnP_cons, if_neg ?hp]
    case hp =>
      rw [hA a (by simp)]
      simp
    rw [ih (fun c hc => hA c (by simp [hc])), List.modifyHead_modifyHead]
    cases h : rest.splitOnP p with
    | nil => simp
    | cons hH hT => simp

theorem splitWs_two (A B : List Nat) (hAne : A ≠ []) (hBne : B ≠ [])
    (hA : ∀ a ∈ A, isWsByte a = false) (hB : ∀ b ∈ B, isWsByte b = false) :
    splitWs (A ++ 32 :: B) = [A, B] := by
  rw [splitWs, splitOnP_notin _ A (32 :: B) hA, List.splitOnP_cons,
    if_pos (by decide : isWsByte 32 = true)]
  rw [show (B : List Nat) = B ++ [] from (List.append_nil B).symm]
  rw [splitOnP_notin _ B [] (fun c hc => hB c (by simpa using hc)), List.splitOnP_nil]
  simp [List.modifyHead, List.filter, hAne, hBne]

theorem digit_not_ws (d : Nat) (h : 48 ≤ d ∧ d ≤ 57) : isWsByte d = false := by
  rw [isWsByte]
  simp
  omega

theorem idxLineEntry_line (s off : Nat) (hs : s < 2 ^ 32) (hoff : off < 2 ^ 64) :
    idxLineEntry (natToBytes s ++ [32] ++ natToBytes off) = some (s, off) := by
  have hsp : splitWs (natToBytes s ++ [32] ++ natToBytes off)
      = [natToBytes s, natToBytes off] := by
    rw [List.append_assoc, show ([32] ++ natToBytes off : List Nat)
        = 32 :: natToBytes off from rfl]
    exact splitWs_two _ _ (natToBytes_ne_nil s) (natToBytes_ne_nil off)
      (fun a ha => digit_not_ws a (natToBytes_digits s a ha))
      (fun b hb => digit_not_ws b (natToBytes_digits off b hb))
  rw [idxLineEntry, hsp]
  simp only [List.get?]
  rw [show parseU32 (natToBytes s) = some s from parseNatBounded_natToBytes _ s hs]
  rw [show parseU64 (natToBytes off) = some off from parseNatBounded_natToBytes _ off hoff]

theorem idxOf_lines (key : SessionKey) (off0 : Nat) (xs : List (Nat × Nat × List Nat)) :
    idxOf key off0 xs
      = ((withOffsets (fun x => (recordJson (recOf key x)).length + 1) off0 xs).map
          (fun e => (natToBytes e.1.1 ++ [32] ++ natToBytes e.2) ++ [10])).flatten := by
  induction xs generalizing off0 with
  | nil => rfl
  | cons x t ih =>
    rw [idxOf, withOffsets, List.map_cons, List.flatten_cons, ih]

theorem withOffsets_map_fst (len : Nat × Nat × List Nat → Nat) (off0 : Nat)
    (xs : List (Nat × Nat × List Nat)) :
    (withOffsets len off0 xs).map Prod.fst = xs := by
  induction xs generalizing off0 with
  | nil => rfl
  | cons x t ih => rw [withOffsets, List.map_cons, ih]

theorem withOffsets_fst_mem (len : Nat × Nat × List Nat → Nat) (off0 : Nat)
    (xs : List (Nat × Nat × List Nat)) (e : (Nat × Nat × List Nat) × Nat)
    (he : e ∈ withOffsets len off0 xs) : e.1 ∈ xs := by
  rw [← withOffsets_map_fst len off0 xs]
  exact List.mem_map_of_mem Prod.fst he

theorem withOffsets_le (len : Nat × Nat × List Nat → Nat) (off0 : Nat)
    (xs : List (Nat × Nat × List Nat)) :
    ∀ e ∈ withOffsets len off0 xs, e.2 + len e.1 ≤ off0 + (xs.map len).sum := by
  induction xs generalizing off0 with
  | nil => simp [withOffsets]
  | cons x t ih =>
    intro e he
    rw [withOffsets] at he
    rcases List.mem_cons.mp he with h | h
    · subst h
      simp
    · have := ih (off0 + len x) e h
      simp only [List.map_cons, List.sum_cons]
      omega

theorem dataOf_length_sum (key : SessionKey) (xs : List (Nat × Nat × List Nat)) :
    (dataOf key xs).length
      = (xs.map (fun x => (recordJson (recOf key x)).length + 1)).sum := by
  induction xs with
  | nil => rfl
  | cons x t ih =>
    rw [dataOf, List.map_cons, List.flatten_cons, List.length_append,
      List.map_cons, List.sum_cons, ← ih, dataOf]
    simp

theorem withOffsets_drop (key : SessionKey) (xs : List (Nat × Nat × List Nat))
    (pre : List Nat) :
    ∀ e ∈ withOffsets (fun x => (recordJson (recOf key x)).length + 1) pre.length xs,
      ∃ suf, (pre ++ dataOf key xs).drop e.2 = recordJson (recOf key e.1) ++ 10 :: suf := by
  induction xs generalizing pre with
  | nil => simp [withOffsets]
  | cons x t ih =>
    intro e he
    rw [withOffsets] at he
    rcases List.mem_cons.mp he with h | h
    · subst h
      refine ⟨dataOf key t, ?_⟩
      rw [dataOf, List.map_cons, List.flatten_cons]
      show (pre ++ ((recordJson (recOf key x) ++ [10])
          ++ (t.map (fun y => recordJson (recOf key y) ++ [10])).flatten)).drop pre.length
        = _
      rw [List.drop_left, List.append_assoc]
      rfl
    · have hlen : pre.length + ((recordJson (recOf key x)).length + 1)
          = (pre ++ (recordJson (recOf key x) ++ [10])).length := by
        simp
      rw [hlen] at h
      obtain ⟨suf, hsuf⟩ := ih (pre ++ (recordJson (recOf key x) ++ [10])) e h
      refine ⟨suf, ?_⟩
      rw [← hsuf, dataOf, List.map_cons, List.flatten_cons]
      simp only [List.append_assoc]
      rfl

theorem filterMap_congr_mem (f g : α → Option β) (l : List α)
    (h : ∀ e ∈ l, f e = g e) : l.filterMap f = l.filterMap g := by
  induction l with
  | nil => rfl
  | cons x t ih =>
    rw [List.filterMap_cons, List.filterMap_cons, h x (by simp),
      ih (fun e he => h e (by simp [he]))]

theorem filterMap_guard (P : α → Prop) [DecidablePred P] (f : α → β) (l : List α) :
    l.filterMap (fun e => if P e then some (f e) else none)
      = (l.filter (fun e => decide (P e))).map f := by
  induction l with
  | nil => rfl
  | cons x t ih =>
    rw [List.filterMap_cons, List.filter_cons]
    by_cases h : P x
    · rw [if_pos h]
      rw [if_pos (by simp [h]), List.map_cons, ih]
    · rw [if_neg h]
      rw [if_neg (by simp [h]), ih]

theorem filterMap_eq_map_of_forall (f : α → Option β) (g : α → β) (l : List α)
    (h : ∀ e ∈ l, f e = some (g e)) : l.filterMap f = l.map g := by
  induction l with
  | nil => rfl
  | cons x t ih =>
    rw [List.filterMap_cons, h x (by simp), List.map_cons,
      ih (fun e he => h e (by simp [he]))]

theorem mem_of_getLast (l : List Nat) (d : Nat) (h : l.getLast? = some d) : d ∈ l := by
  induction l with
  | nil => simp at h
  | cons a t ih =>
    cases t with
    | nil =>
      simp at h
      simp [h]
    | cons b t2 =>
      rw [List.getLast?_cons_cons] at h
      simp [ih h]

theorem natToBytes_getLast_ne13 (n : Nat) : (natToBytes n).getLast? ≠ some 13 := by
  intro h
  have := natToBytes_digits n 13 (mem_of_getLast _ _ h)
  omega

theorem idxline_no10 (s off : Nat) :
    ¬ 10 ∈ natToBytes s ++ [32] ++ natToBytes off :=
  no10_append _ _ (no10_append _ _ (natToBytes_no10 s) (by decide)) (natToBytes_no10 off)

theorem idxline_last_ne13 (s off : Nat) :
    (natToBytes s ++ [32] ++ natToBytes off).getLast? ≠ some 13 := by
  rw [List.getLast?_append_of_ne_nil _ (natToBytes_ne_nil off)]
  exact natToBytes_getLast_ne13 off

theorem idxOf_lines2 (key : SessionKey) (off0 : Nat) (xs : List (Nat × Nat × List Nat)) :
    idxOf key off0 xs
      = (((withOffsets (fun x => (recordJson (recOf key x)).length + 1) off0 xs).map
            (fun e => natToBytes e.1.1 ++ [32] ++ natToBytes e.2)).map (· ++ [10])).flatten := by
  rw [idxOf_lines, List.map_map]
  rfl

theorem linesOf_idxOf (key : SessionKey) (off0 : Nat) (xs : List (Nat × Nat × List Nat)) :
    linesOf (idxOf key off0 xs)
      = (withOffsets (fun x => (recordJson (recOf key x)).length + 1) off0 xs).map
          (fun e => natToBytes e.1.1 ++ [32] ++ natToBytes e.2) := by
  rw [idxOf_lines2]
  refine linesOf_flatten _ ?_ ?_
  · intro l hl
    obtain ⟨e, _, hle⟩ := List.mem_map.mp hl
    rw [← hle]
    exact idxline_no10 e.1.1 e.2
  · intro l hl
    obtain ⟨e, _, hle⟩ := List.mem_map.mp hl
    rw [← hle]
    exact idxline_last_ne13 e.1.1 e.2

theorem readLineAt_of_drop (data : List Nat) (off : Nat) (line suf : List Nat)
    (h : data.drop off = line ++ 10 :: suf) (hno : ¬ 10 ∈ line) :
    readLineAt data off = line ++ [10] := by
  rw [readLineAt, h]
  have ht : (line ++ 10 :: suf).takeWhile (fun b => b ≠ 10) = line := by
    refine takeWhile_append_eq _ _ _ ?_ ?_
    · intro b hb
      simp
      exact fun hc => hno (hc ▸ hb)
    · intro c hc
      simp at hc
      simp [hc]
  rw [ht, List.drop_left]
  simp

theorem flush_files_zero (key : SessionKey) (xs : List (Nat × Nat × List Nat))
    (hne : xs ≠ []) :
    flush_batch emptyFs (xs.map (recOf key)) (jsonlName (file_stem key))
        = some (dataOf key xs)
    ∧ flush_batch emptyFs (xs.map (recOf key)) (idxName (file_stem key))
        = some (idxOf key 0 xs) := by
  cases xs with
  | nil => simp at hne
  | cons x t =>
    obtain ⟨hfd, hfi⟩ := flushRecord_files key x emptyFs
    simp only [emptyFs, Option.getD_none, List.nil_append, List.length_nil] at hfd hfi
    have hstep : flush_batch emptyFs ((x :: t).map (recOf key))
        = flush_batch (flushRecord emptyFs (recOf key x)) (t.map (recOf key)) := rfl
    rw [hstep]
    obtain ⟨h1, h2⟩ := flush_files_some key t (flushRecord emptyFs (recOf key x))
      (recordJson (recOf key x) ++ [10])
      (natToBytes x.1 ++ [32] ++ natToBytes 0 ++ [10]) hfd hfi
    refine ⟨?_, ?_⟩
    · rw [h1]
      simp [dataOf, List.append_assoc]
    · rw [h2, idxOf]
      have hlen : (recordJson (recOf key x) ++ [10]).length
          = 0 + ((recordJson (recOf key x)).length + 1) := by
        simp
      rw [hlen]

set_option maxHeartbeats 1000000 in
theorem load_after_flush (key : SessionKey) (xs : List (Nat × Nat × List Nat)) (a b : Nat)
    (hseq : ∀ x ∈ xs, x.1 < 2 ^ 32)
    (hts : ∀ x ∈ xs, x.2.1 < 2 ^ 64)
    (hpl : ∀ x ∈ xs, ∀ byte ∈ x.2.2, byte < 256)
    (hfit : (dataOf key xs).length < 2 ^ 64) :
    load_outbound_range (flush_batch emptyFs (xs.map (recOf key))) key a b
      = .ok (((xs.filter (fun x => a ≤ x.1 ∧ x.1 ≤ b)).insertionSort
            (fun x y => x.1 ≤ y.1)).map (fun x => x.2.2)) := by
  by_cases hxs : xs = []
  · subst hxs
    simp [load_outbound_range, flush_batch, emptyFs]
  · obtain ⟨hfd, hfi⟩ := flush_files_zero key xs hxs
    have hoffb : ∀ e ∈ withOffsets (fun x => (recordJson (recOf key x)).length + 1) 0 xs,
        e.2 < 2 ^ 64 := by
      intro e he
      have h1 := withOffsets_le (fun x => (recordJson (recOf key x)).length + 1) 0 xs e he
      rw [← dataOf_length_sum key xs] at h1
      have h2 : 1 ≤ (recordJson (recOf key e.1)).length + 1 := by omega
      simp only at h1
      omega
    have hentry : ∀ e ∈ withOffsets (fun x => (recordJson (recOf key x)).length + 1) 0 xs,
        (match idxLineEntry (natToBytes e.1.1 ++ [32] ++ natToBytes e.2) with
         | some (sq, off) => if a ≤ sq ∧ sq ≤ b then some (sq, off) else none
         | none => none)
        = (if a ≤ e.1.1 ∧ e.1.1 ≤ b then some (e.1.1, e.2) else none) := by
      intro e he
      rw [idxLineEntry_line e.1.1 e.2 (hseq e.1 (withOffsets_fst_mem _ _ _ e he))
        (hoffb e he)]
    have hload : ∀ e ∈ withOffsets (fun x => (recordJson (recOf key x)).length + 1) 0 xs,
        (fun p : Nat × Nat =>
          let line := readLineAt (dataOf key xs) p.2
          if line.all isWsByte then none
          else match parseRecordLine line with
            | some rec => base64Decode rec.payload_b64
            | none => none) ((fun e => (e.1.1, e.2)) e)
        = some e.1.2.2 := by
      intro e he
      obtain ⟨suf, hdrop⟩ := withOffsets_drop key xs [] e he
      rw [List.nil_append] at hdrop
      have hline : readLineAt (dataOf key xs) e.2
          = recordJson (recOf key e.1) ++ [10] :=
        readLineAt_of_drop _ _ _ _ hdrop (recordJson_no10 _)
      have hm := withOffsets_fst_mem
        (fun x => (recordJson (recOf key x)).length + 1) 0 xs e he
      obtain ⟨tl, htl⟩ : ∃ tl, recordJson (recOf key e.1) = 123 :: tl := ⟨_, rfl⟩
      have hws : ((recordJson (recOf key e.1) ++ [10]).all isWsByte) = false := by
        rw [htl]
        simp [isWsByte]
      have hparse : parseRecordLine (recordJson (recOf key e.1) ++ [10])
          = some (recOf key e.1) :=
        parseRecordLine_roundtrip key .outbound e.1.1 e.1.2.1 (base64Encode e.1.2.2)
          (hseq e.1 hm) (hts e.1 hm)
      simp only [hline, hws, Bool.false_eq_true, if_false, hparse]
      exact base64_roundtrip _ (hpl e.1 hm)
    simp only [load_outbound_range]
    rw [hfi, hfd]
    simp only [linesOf_idxOf key 0 xs, List.filterMap_map]
    simp only [Function.comp_def]
    rw [filterMap_congr_mem _ _ _ hentry]
    rw [filterMap_guard (fun e : (Nat × Nat × List Nat) × Nat => a ≤ e.1.1 ∧ e.1.1 ≤ b)
      (fun e : (Nat × Nat × List Nat) × Nat => (e.1.1, e.2)) _]
    rw [← List.map_insertionSort
      (fun e1 e2 : (Nat × Nat × List Nat) × Nat => e1.1.1 ≤ e2.1.1)
      (fun p1 p2 : Nat × Nat => p1.1 ≤ p2.1)
      (fun e => (e.1.1, e.2)) _ (fun _ _ _ _ => Iff.rfl)]
    rw [List.filterMap_map]
    simp only [Function.comp_def]
    rw [filterMap_eq_map_of_forall _ (fun e => e.1.2.2) _ ?hall]
    case hall =>
      intro e he
      refine hload e ?_
      have h1 := (List.mem_insertionSort _).mp he
      exact List.mem_of_mem_filter h1
    rw [show (fun e : (Nat × Nat × List Nat) × Nat => e.1.2.2)
        = (fun x : Nat × Nat × List Nat => x.2.2) ∘ Prod.fst from rfl]
    rw [← List.map_map]
    rw [List.map_insertionSort
      (fun e1 e2 : (Nat × Nat × List Nat) × Nat => e1.1.1 ≤ e2.1.1)
      (fun x y : Nat × Nat × List Nat => x.1 ≤ y.1)
      Prod.fst _ (fun _ _ _ _ => Iff.rfl)]
    rw [show (fun e : (Nat × Nat × List Nat) × Nat => decide (a ≤ e.1.1 ∧ e.1.1 ≤ b))
        = ((fun x : Nat × Nat × List Nat => decide (a ≤ x.1 ∧ x.1 ≤ b)) ∘ Prod.fst)
        from rfl]
    rw [← List.filter_map]
    rw [withOffsets_map_fst]

/-- **C8 (confirmed).** For every sequence of outbound appends carrying
sequence numbers, a subsequent `load_outbound_range(session, a, b)`
returns exactly the appended payloads whose seq lies in `[a, b]`, in
ascending seq order and byte-identical to what was appended; and when the
session index file does not exist, the result is the empty list, not an
error. -/
theorem c8_flush_load (key : SessionKey) (xs : List (Nat × Nat × List Nat)) (a b : Nat)
    (hseq : ∀ x ∈ xs, x.1 < 2 ^ 32)
    (hts : ∀ x ∈ xs, x.2.1 < 2 ^ 64)
    (hpl : ∀ x ∈ xs, ∀ byte ∈ x.2.2, byte < 256)
    (hfit : (dataOf key xs).length < 2 ^ 64) :
    load_outbound_range (flush_batch emptyFs (xs.map (recOf key))) key a b
        = .ok (((xs.filter (fun x => a ≤ x.1 ∧ x.1 ≤ b)).insertionSort
              (fun x y => x.1 ≤ y.1)).map (fun x => x.2.2))
    ∧ ∀ fs : Fs, fs (idxName (file_stem key)) = none →
        load_outbound_range fs key a b = .ok [] :=
  ⟨load_after_flush key xs a b hseq hts hpl hfit,
    fun fs h => by simp [load_outbound_range, h]⟩

set_option maxRecDepth 100000 in
/-- C8 witness: three appends with seqs 2, 1, 4; loading `[1, 2]` returns
the payloads of seq 1 then seq 2, in order. -/
theorem c8_witness :
    (load_outbound_range (flush_batch emptyFs
          (([(2, 5, [80]), (1, 3, [81]), (4, 7, [82])] : List (Nat × Nat × List Nat)).map
            (recOf ⟨ascii "S", ascii "T"⟩))) ⟨ascii "S", ascii "T"⟩ 1 2
        = .ok (((([(2, 5, [80]), (1, 3, [81]), (4, 7, [82])]
              : List (Nat × Nat × List Nat)).filter
                (fun x => 1 ≤ x.1 ∧ x.1 ≤ 2)).insertionSort
              (fun x y => x.1 ≤ y.1)).map (fun x => x.2.2)))
    ∧ ∀ fs : Fs, fs (idxName (file_stem ⟨ascii "S", ascii "T"⟩)) = none →
        load_outbound_range fs ⟨ascii "S", ascii "T"⟩ 1 2 = .ok [] :=
  c8_flush_load ⟨ascii "S", ascii "T"⟩
    ([(2, 5, [80]), (1, 3, [81]), (4, 7, [82])] : List (Nat × Nat × List Nat)) 1 2
    (by decide) (by decide) (by decide) (by decide)

end Fixg
